import Mathlib

/-!
# helper/log.c of OpenOCD: log distribution, deferral and keep-alive

A shallow embedding of `src/helper/log.c`.  The process-wide globals of the
file become the fields of one `State` record; every C function becomes a
function on that record.

Modelling decisions, all local to this file:

* The singly linked list `log_callbacks` is a `List log_callback` in link
  order.  Every node carries the address `malloc` returned for it; addresses
  are never reused, so a pointer to a node that was freed is dangling for good
  and dereferencing it is a fault (`use_after_free`).
* The deferral queue `log_head` is a `List store_log_forward` in link order.
* Callbacks are code outside `log.c`.  Their behaviour is given by `Env.code`:
  for the arguments of one invocation it lists the calls back into `log.c`
  the callback makes (registering, unregistering, logging).
* Calls that may run callbacks take a `fuel : Nat`.  Each nested call and each
  iteration of the dispatch loop uses one unit; running out is the fault
  `out_of_fuel`.
* `int` and `long long` values are mathematical integers: the counters change
  by one per call and the timestamps are millisecond clock readings.
* `malloc` may fail where `log.c` tests its result (`log_add_callback`,
  `alloc_vprintf`); the unchecked allocations of `log_forward` succeed.
* What leaves `log.c` is recorded: `log_output` holds the strings written to
  the sink, `calls` the callback invocations, `alloc_vprintf_calls` the number
  of formatter calls and `emitted` the events handed to `log_printf` and
  `log_printf_lf`.
* `uint64_t` and `unsigned` values are natural numbers reduced modulo 2^64 and
  2^32 where the code computes them (`alive_sleep`, `new_level`).  The loop of
  `alive_sleep` takes the number of iterations it may make (`naps`); `usleep`
  advances the simulated clock.
* The parsers of command.h are outside `log.c`: `parse_int` is a model of
  signed decimal numbers, `parse_uint` a parameter of the command handler.
-/

namespace Log

/-! ## Constants declared in log.h -/

/-- Modelled from the spec: `enum log_levels` of log.h (absent under src/), an
ordered enum, most severe first, with `[Silent, Debug]` as its range and
`[0,3]` as the range of the verbosity command. -/
def LOG_LVL_SILENT : Int := -3

/-- Modelled from the spec: the level reserved for raw output (log.h). -/
def LOG_LVL_OUTPUT : Int := -2

/-- Modelled from the spec: user level, index 0 of `log_strings` (log.h). -/
def LOG_LVL_USER : Int := -1

/-- Modelled from the spec: level 0, "only ERRORS" (log.h). -/
def LOG_LVL_ERROR : Int := 0

/-- Modelled from the spec: level 1, "+ WARNINGS" (log.h). -/
def LOG_LVL_WARNING : Int := 1

/-- Modelled from the spec: level 2, "+ INFORMATIONAL MSGS" (log.h). -/
def LOG_LVL_INFO : Int := 2

/-- Modelled from the spec: level 3, "+ DEBUG MSGS" (log.h). -/
def LOG_LVL_DEBUG : Int := 3

/-- Modelled from the spec: the error codes of log.h (absent under src/).  The
spec names `AlreadyRegistered`/`NotFound` (`ERROR_INVALID_ARGUMENTS` in the
code), allocation failure "which is a separate error kind"
(`ERROR_BUF_TOO_SMALL`) and the syntax error of the commands. -/
inductive ErrorCode where
  | ERROR_OK
  | ERROR_INVALID_ARGUMENTS
  | ERROR_BUF_TOO_SMALL
  | ERROR_COMMAND_SYNTAX_ERROR
  deriving DecidableEq, Repr

open ErrorCode

/-! ## Data model -/

/-- One node of the list `log_callbacks`: `struct log_callback` (fields `fn`,
`priv`; `next` is the list order) together with the address of the node. -/
structure log_callback where
  addr : Nat
  fn : Nat
  priv : Nat
  deriving DecidableEq, Repr

/-- One node of the deferral queue: `struct store_log_forward` (`next` is the
list order). -/
structure store_log_forward where
  file : String
  line : Nat
  function : String
  string : String
  deriving DecidableEq, Repr

/-- One variadic argument of a printf-style call. -/
inductive Arg where
  | str (s : String)
  | int (n : Int)
  deriving DecidableEq, Repr

/-- One callback invocation `fn(priv, file, line, function, string)`. -/
structure Invocation where
  fn : Nat
  priv : Nat
  file : String
  line : Nat
  function : String
  string : String
  deriving DecidableEq, Repr

/-- One event handed to `log_printf` or `log_printf_lf`. -/
structure Emitted where
  level : Int
  file : String
  line : Nat
  function : String
  format : String
  args : List Arg
  lf : Bool
  deriving DecidableEq, Repr

/-- The globals of log.c, the two globals of server.c it reads, the clock and
the allocator it calls, and the record of what left the file. -/
structure State where
  debug_level : Int := -1
  log_output : List String := []
  log_callbacks : List log_callback := []
  last_time : Int := 0
  current_time : Int := 0
  start : Int := 0
  count : Int := 0
  log_head : List store_log_forward := []
  log_forward_count : Int := 0
  server_use_pipes : Int := 0
  gdb_actual_connections : Int := 0
  clock : Int := 0
  mallocs : Nat := 0
  calls : List Invocation := []
  alloc_vprintf_calls : Nat := 0
  emitted : List Emitted := []
  deriving DecidableEq, Repr

/-- A call a callback makes back into log.c. -/
inductive Action where
  | add_callback (fn priv : Nat)
  | remove_callback (fn priv : Nat)
  | printf (level : Int) (file : String) (line : Nat) (function : String)
      (format : String) (args : List Arg)
  | printf_lf (level : Int) (file : String) (line : Nat) (function : String)
      (format : String) (args : List Arg)
  deriving DecidableEq, Repr

/-- What surrounds log.c: the code of the callbacks (by function pointer,
context and the arguments of the invocation) and the allocator (whether the
allocation with a given serial number succeeds). -/
structure Env where
  code : Nat → Nat → String → Nat → String → String → List Action
  malloc_ok : Nat → Bool

/-- Ways a run can stop without returning. -/
inductive Fault where
  | out_of_fuel
  | assertion_failed
  | use_after_free
  | out_of_bounds
  deriving DecidableEq, Repr

/-- The result of a call: a fault or the state it returns in. -/
abbrev Outcome := Except Fault State

/-! ## String helpers of the C library -/

/-- The array `log_strings` of log.c. -/
def log_strings : List String :=
  ["User : ", "Error: ", "Warn : ", "Info : ", "Debug: "]

/-- The read `log_strings[level + 1]`; an index outside the array is `none`. -/
def log_strings_at (level : Int) : Option String :=
  if 0 ≤ level + 1 then log_strings.get? (level + 1).toNat else none

/-- The code `f = strrchr(file, '/'); if (f != NULL) file = f + 1;`. -/
def strip_dirs (file : String) : String :=
  String.mk ((file.data.reverse.takeWhile (fun c => c != '/')).reverse)

/-- The test `strchr(string, '\n') != NULL`. -/
def has_newline (string : String) : Bool :=
  string.data.contains '\n'

/-- The cast `(int)` of a `long long`. -/
def to_int (x : Int) : Int :=
  (x + 2147483648) % 4294967296 - 2147483648

/-- Modelled from the spec: the format capability ("conventional
positional/printf-style substitution"), here the conversions log.c uses. -/
def vsnprintf : List Char → List Arg → List Char
  | [], _ => []
  | '%' :: '%' :: cs, as => '%' :: vsnprintf cs as
  | '%' :: 's' :: cs, Arg.str x :: as => x.data ++ vsnprintf cs as
  | '%' :: 'd' :: cs, Arg.int n :: as => (toString n).data ++ vsnprintf cs as
  | '%' :: 'i' :: cs, Arg.int n :: as => (toString n).data ++ vsnprintf cs as
  | '%' :: 'l' :: 'l' :: 'd' :: cs, Arg.int n :: as =>
      (toString n).data ++ vsnprintf cs as
  | c :: cs, as => c :: vsnprintf cs as

/-- The function `alloc_vprintf`: counts the call, takes one allocation and
returns the formatted string, or `none` (NULL) when `malloc` fails. -/
def alloc_vprintf (E : Env) (s : State) (fmt : String) (ap : List Arg) :
    Option String × State :=
  let s1 := { s with alloc_vprintf_calls := s.alloc_vprintf_calls + 1,
                     mallocs := s.mallocs + 1 }
  if E.malloc_ok s.mallocs then (some (String.mk (vsnprintf fmt.data ap)), s1)
  else (none, s1)

/-- The clock `timeval_ms()`. -/
def timeval_ms (s : State) : Int := s.clock

/-! ## Callback registry -/

/-- The loop of `log_add_callback`: is `(fn, priv)` already in the list? -/
def registered (fn priv : Nat) : List log_callback → Bool
  | [] => false
  | cb :: rest => if cb.fn = fn ∧ cb.priv = priv then true else registered fn priv rest

/-- The function `log_add_callback`. -/
def log_add_callback (E : Env) (s : State) (fn priv : Nat) : ErrorCode × State :=
  if registered fn priv s.log_callbacks then (ERROR_INVALID_ARGUMENTS, s)
  else if E.malloc_ok s.mallocs then
    (ERROR_OK, { s with log_callbacks := ⟨s.mallocs, fn, priv⟩ :: s.log_callbacks,
                        mallocs := s.mallocs + 1 })
  else (ERROR_BUF_TOO_SMALL, { s with mallocs := s.mallocs + 1 })

/-- The loop of `log_remove_callback`: unlink the first node that matches;
`none` when the end of the list is reached. -/
def unlink (fn priv : Nat) : List log_callback → Option (List log_callback)
  | [] => none
  | cb :: rest =>
    if cb.fn = fn ∧ cb.priv = priv then some rest
    else match unlink fn priv rest with
      | none => none
      | some rest1 => some (cb :: rest1)

/-- The function `log_remove_callback`. -/
def log_remove_callback (s : State) (fn priv : Nat) : ErrorCode × State :=
  match unlink fn priv s.log_callbacks with
  | some l => (ERROR_OK, { s with log_callbacks := l })
  | none => (ERROR_INVALID_ARGUMENTS, s)

/-- Dereference a `struct log_callback *`: the node at that address and its
`next` pointer, or `none` when no node of the list lives there. -/
def deref (a : Nat) : List log_callback → Option (log_callback × Option Nat)
  | [] => none
  | cb :: rest =>
    if cb.addr = a then some (cb, rest.head?.map (fun n => n.addr)) else deref a rest

/-- The block `if (strchr(string, '\n') != NULL) { ... }` of `log_puts`, which
writes the line to the sink; `file` has lost its directories already. -/
def log_puts_sink (s : State) (level : Int) (file : String) (line : Nat)
    (function string : String) : Outcome :=
  if has_newline string then
    if s.debug_level ≥ LOG_LVL_DEBUG then
      let t := to_int (timeval_ms s - s.start)
      match log_strings_at level with
      | none => .error .out_of_bounds
      | some lvl =>
        .ok { s with log_output := s.log_output ++
          [lvl ++ toString s.count ++ " " ++ toString t ++ " " ++ file ++ ":" ++
            toString line ++ " " ++ function ++ "(): " ++ string] }
    else if s.server_use_pipes = 0 then
      if string ≠ "\n" then
        if level > LOG_LVL_USER then
          match log_strings_at level with
          | none => .error .out_of_bounds
          | some lvl => .ok { s with log_output := s.log_output ++ [lvl ++ string] }
        else .ok { s with log_output := s.log_output ++ ["" ++ string] }
      else .ok s
    else .ok s
  else .ok s

/-! ## Forwarding, formatting and the callbacks -/

mutual

/-- The function `log_forward`: forward to the listeners or store. -/
def log_forward (E : Env) : Nat → State → String → Nat → String → String → Outcome
  | fuel, s, file, line, function, string =>
    if s.log_forward_count = 0 then
      match fuel with
      | 0 => .error .out_of_fuel
      | f + 1 => forward_loop E f (s.log_callbacks.head?.map (fun n => n.addr)) s
                  file line function string
    else
      .ok { s with log_head := s.log_head ++ [⟨file, line, function, string⟩] }
termination_by structural fuel => fuel

/-- The loop `while (cb)` of `log_forward`: `next` is read before the call. -/
def forward_loop (E : Env) :
    Nat → Option Nat → State → String → Nat → String → String → Outcome
  | _, none, s, _, _, _, _ => .ok s
  | 0, some _, _, _, _, _, _ => .error .out_of_fuel
  | f + 1, some a, s, file, line, function, string =>
    match deref a s.log_callbacks with
    | none => .error .use_after_free
    | some (cb, next) =>
      match (E.code cb.fn cb.priv file line function string).foldlM
          (fun st act => callback_action E f act st)
          { s with calls := s.calls ++ [⟨cb.fn, cb.priv, file, line, function, string⟩] } with
      | .error e => .error e
      | .ok s1 => forward_loop E f next s1 file line function string
termination_by structural fuel => fuel

/-- One call a callback makes into log.c. -/
def callback_action (E : Env) : Nat → Action → State → Outcome
  | _, .add_callback fn priv, s => .ok (log_add_callback E s fn priv).2
  | _, .remove_callback fn priv, s => .ok (log_remove_callback s fn priv).2
  | fuel, .printf level file line function format args, s =>
    match fuel with
    | 0 => .error .out_of_fuel
    | f + 1 => log_printf E f s level file line function format args
  | fuel, .printf_lf level file line function format args, s =>
    match fuel with
    | 0 => .error .out_of_fuel
    | f + 1 => log_printf_lf E f s level file line function format args
termination_by structural fuel => fuel

/-- The function `log_puts`. -/
def log_puts (E : Env) : Nat → State → Int → String → Nat → String → String → Outcome
  | fuel, s, level, file, line, function, string =>
    if level = LOG_LVL_OUTPUT then
      .ok { s with log_output := s.log_output ++ [string] }
    else
      let file := strip_dirs file
      match log_puts_sink s level file line function string with
      | .error e => .error e
      | .ok s1 =>
        if level ≤ LOG_LVL_INFO then
          match fuel with
          | 0 => .error .out_of_fuel
          | f + 1 => log_forward E f s1 file line function string
        else .ok s1
termination_by structural fuel => fuel

/-- The function `log_printf`. -/
def log_printf (E : Env) :
    Nat → State → Int → String → Nat → String → String → List Arg → Outcome
  | fuel, s, level, file, line, function, format, args =>
    let s0 := { s with count := s.count + 1,
                       emitted := s.emitted ++ [⟨level, file, line, function, format, args, false⟩] }
    if level > s0.debug_level then .ok s0
    else
      match alloc_vprintf E s0 format args with
      | (none, s1) => .ok s1
      | (some string, s1) =>
        match fuel with
        | 0 => .error .out_of_fuel
        | f + 1 => log_puts E f s1 level file line function string
termination_by structural fuel => fuel

/-- The function `log_printf_lf`. -/
def log_printf_lf (E : Env) :
    Nat → State → Int → String → Nat → String → String → List Arg → Outcome
  | fuel, s, level, file, line, function, format, args =>
    let s0 := { s with count := s.count + 1,
                       emitted := s.emitted ++ [⟨level, file, line, function, format, args, true⟩] }
    if level > s0.debug_level then .ok s0
    else
      match alloc_vprintf E s0 format args with
      | (none, s1) => .ok s1
      | (some string, s1) =>
        match fuel with
        | 0 => .error .out_of_fuel
        | f + 1 => log_puts E f s1 level file line function (string ++ "\n")
termination_by structural fuel => fuel

end

/-! ## The deferral region -/

/-- The function `log_try`. -/
def log_try (s : State) : State :=
  { s with log_forward_count := s.log_forward_count + 1 }

/-- The function `log_catch`; a failed `assert` is the fault `assertion_failed`. -/
def log_catch (s : State) : Outcome :=
  if s.log_forward_count > 0 then
    .ok { s with log_forward_count := s.log_forward_count - 1 }
  else .error .assertion_failed

/-- The loop `while (log != NULL)` of `log_rethrow`: forward the node, go to
the next one, free the node. -/
def replay (E : Env) (fuel : Nat) : List store_log_forward → State → Outcome
  | [], s => .ok s
  | log :: rest, s =>
    match log_forward E fuel s log.file log.line log.function log.string with
    | .error e => .error e
    | .ok s1 => replay E fuel rest s1

/-- The function `log_rethrow`. -/
def log_rethrow (E : Env) (fuel : Nat) (s : State) : Outcome :=
  match log_catch s with
  | .error e => .error e
  | .ok s1 =>
    if s1.log_forward_count = 0 then
      match replay E fuel s1.log_head s1 with
      | .error e => .error e
      | .ok s2 => .ok { s2 with log_head := [] }
    else .ok s1

/-! ## Keep-alive -/

/-- Modelled from the spec: the macro `LOG_WARNING` of log.h (absent under
src/), an event of warning severity with a trailing newline. -/
def LOG_WARNING (E : Env) (fuel : Nat) (s : State) (file : String) (line : Nat)
    (function format : String) (args : List Arg) : Outcome :=
  log_printf_lf E fuel s LOG_LVL_WARNING file line function format args

/-- Modelled from the spec: the macro `LOG_DEBUG` of log.h (absent under
src/), an event of debug severity with a trailing newline. -/
def LOG_DEBUG (E : Env) (fuel : Nat) (s : State) (file : String) (line : Nat)
    (function format : String) (args : List Arg) : Outcome :=
  log_printf_lf E fuel s LOG_LVL_DEBUG file line function format args

/-- Modelled from the spec: the macro `LOG_USER_N` of log.h (absent under
src/), an event of user severity without a trailing newline. -/
def LOG_USER_N (E : Env) (fuel : Nat) (s : State) (file : String) (line : Nat)
    (function format : String) (args : List Arg) : Outcome :=
  log_printf E fuel s LOG_LVL_USER file line function format args

/-- The value of `__FILE__` in log.c. -/
def FILE__ : String := "src/helper/log.c"

/-- The function `keep_alive`. -/
def keep_alive (E : Env) (fuel : Nat) (s : State) : Outcome :=
  let s0 := { s with current_time := timeval_ms s }
  let warned : Outcome :=
    if s0.current_time - s0.last_time > 1000 then
      if s0.gdb_actual_connections ≠ 0 then
        LOG_WARNING E fuel s0 FILE__ 482 "keep_alive"
          ("keep_alive() was not invoked in the 1000ms timelimit. GDB alive packet not " ++
            "sent! (%lld). Workaround: increase \"set remotetimeout\" in GDB")
          [Arg.int (s0.current_time - s0.last_time)]
      else
        LOG_DEBUG E fuel s0 FILE__ 488 "keep_alive"
          ("keep_alive() was not invoked in the 1000ms timelimit (%lld). This may cause " ++
            "trouble with GDB connections.")
          [Arg.int (s0.current_time - s0.last_time)]
    else .ok s0
  match warned with
  | .error e => .error e
  | .ok s1 =>
    if s1.current_time - s1.last_time > 500 then
      match LOG_USER_N E fuel s1 FILE__ 496 "keep_alive" "%s" [Arg.str ""] with
      | .error e => .error e
      | .ok s2 => .ok { s2 with last_time := s2.current_time }
    else .ok s1

/-- The function `kept_alive`. -/
def kept_alive (s : State) : State :=
  let s0 := { s with current_time := timeval_ms s }
  { s0 with last_time := s0.current_time }

/-! ## Vocabulary of the statements -/

/-- What no function of the forwarding path writes: the nesting counter, the
threshold, the clock, the timestamps and the globals of server.c; and the
deferral queue while the counter is zero. -/
def frame (s s1 : State) : Prop :=
  s1.log_forward_count = s.log_forward_count ∧ s1.debug_level = s.debug_level ∧
  s1.last_time = s.last_time ∧ s1.current_time = s.current_time ∧ s1.start = s.start ∧
  s1.server_use_pipes = s.server_use_pipes ∧
  s1.gdb_actual_connections = s.gdb_actual_connections ∧ s1.clock = s.clock ∧
  (s.log_forward_count = 0 → s1.log_head = s.log_head)

/-- The six functions of the forwarding path, at one amount of fuel. -/
def frame_at (E : Env) (fuel : Nat) : Prop :=
  (∀ s file line function string s1,
      log_forward E fuel s file line function string = .ok s1 → frame s s1) ∧
  (∀ p s file line function string s1,
      forward_loop E fuel p s file line function string = .ok s1 → frame s s1) ∧
  (∀ act s s1, callback_action E fuel act s = .ok s1 → frame s s1) ∧
  (∀ s level file line function string s1,
      log_puts E fuel s level file line function string = .ok s1 → frame s s1) ∧
  (∀ s level file line function format args s1,
      log_printf E fuel s level file line function format args = .ok s1 → frame s s1) ∧
  (∀ s level file line function format args s1,
      log_printf_lf E fuel s level file line function format args = .ok s1 → frame s s1)

/-- An environment whose callbacks make no call into log.c and whose
allocator never fails. -/
def quiet : Env := ⟨fun _ _ _ _ _ _ => [], fun _ => true⟩

/-- The identity `(fn, priv)` of a subscription. -/
def identity (cb : log_callback) : Nat × Nat := (cb.fn, cb.priv)

/-- The subscription has the identity `(fn, priv)`: the test
`cb->fn == fn && cb->priv == priv`. -/
def is_sub (fn priv : Nat) (cb : log_callback) : Bool :=
  decide (cb.fn = fn ∧ cb.priv = priv)

/-- The callbacks make no call into log.c: they neither log nor change the
registry. -/
def inert (E : Env) : Prop :=
  ∀ fn priv file line function string, E.code fn priv file line function string = []

/-- The invocation of subscription `cb` with one event. -/
def deliver (file : String) (line : Nat) (function string : String) (cb : log_callback) :
    Invocation :=
  ⟨cb.fn, cb.priv, file, line, function, string⟩

/-- One call of a client of the deferral region. -/
inductive Op where
  | log_try
  | log_catch
  | log_rethrow
  | log_forward (file : String) (line : Nat) (function string : String)
  deriving DecidableEq, Repr

/-- Perform one call. -/
def run_op (E : Env) (fuel : Nat) (s : State) : Op → Outcome
  | .log_try => .ok (log_try s)
  | .log_catch => log_catch s
  | .log_rethrow => log_rethrow E fuel s
  | .log_forward file line function string => log_forward E fuel s file line function string

/-- Perform the calls of a list, first to last, as long as they return. -/
def run (E : Env) (fuel : Nat) : List Op → State → Outcome
  | [], s => .ok s
  | op :: ops, s =>
    match run_op E fuel s op with
    | .error e => .error e
    | .ok s1 => run E fuel ops s1

/-- The events a list of calls publishes, first to last. -/
def published : List Op → List store_log_forward
  | [] => []
  | .log_forward file line function string :: ops =>
    ⟨file, line, function, string⟩ :: published ops
  | _ :: ops => published ops

/-- The calls, made at nesting depth `d`, stay inside properly nested
`log_try`/`log_rethrow` regions: every `log_rethrow` closes an open region, and
the last call is the `log_rethrow` that closes the outermost one, which no
earlier call does.  No region is left by `log_catch`. -/
def nested : Nat → List Op → Bool
  | _, [] => false
  | _, .log_catch :: _ => false
  | d, .log_try :: ops => nested (d + 1) ops
  | d, .log_forward _ _ _ _ :: ops => nested d ops
  | 0, .log_rethrow :: _ => false
  | 1, .log_rethrow :: ops => ops.isEmpty
  | d + 2, .log_rethrow :: ops => nested (d + 1) ops

/-- The invocations by which every subscription of the registry, in list
order, receives every event of the queue, in queue order. -/
def deliveries (registry : List log_callback) (queue : List store_log_forward) :
    List Invocation :=
  queue.flatMap (fun e => registry.map (deliver e.file e.line e.function e.string))
/-- The invocation was made on the subscription with identity `(fn, priv)`. -/
def invoked_on (fn priv : Nat) (i : Invocation) : Bool :=
  decide (i.fn = fn ∧ i.priv = priv)

/-- Every callback either makes no call into log.c or makes the one call
`log_remove_callback` on its own `(fn, priv)`. -/
def only_self_removal (E : Env) : Prop :=
  ∀ fn priv file line function string,
    E.code fn priv file line function string = [] ∨
    E.code fn priv file line function string = [Action.remove_callback fn priv]

/-- The callback of the subscription makes no call when invoked with the
event: it stays registered. -/
def stays (E : Env) (file : String) (line : Nat) (function string : String)
    (cb : log_callback) : Bool :=
  decide (E.code cb.fn cb.priv file line function string = [])

/-- An environment in which the callback with function pointer 8 unregisters
itself whenever it is invoked and all others make no call. -/
def leaver : Env :=
  ⟨fun fn priv _ _ _ _ => if fn = 8 then [Action.remove_callback fn priv] else [],
   fun _ => true⟩

/-- The events handed to `log_printf`/`log_printf_lf` between two states went
through without a callback calling back: the forwarding path left its frame
alone, the registry is the same and `emitted` grew by exactly `es`. -/
def emits (s s1 : State) (es : List Emitted) : Prop :=
  frame s s1 ∧ s1.log_callbacks = s.log_callbacks ∧ s1.emitted = s.emitted ++ es

/-- The liveness event of `keep_alive`: `LOG_USER_N("%s", "")`. -/
def liveness_event : Emitted :=
  ⟨LOG_LVL_USER, FILE__, 496, "keep_alive", "%s", [Arg.str ""], false⟩

/-- The text an emitted event is formatted to. -/
def text_of (e : Emitted) : String :=
  String.mk (vsnprintf e.format.data e.args)

/-- The simulated clock: call `keep_alive` when the clock reads `t`. -/
def keep_alive_at (E : Env) (fuel : Nat) (t : Int) (s : State) : Outcome :=
  keep_alive E fuel { s with clock := t }

/-- The code of the callbacks: the subscription `(fn0, priv0)` makes the one
call `act` into log.c when it is invoked with the event `q`; no other
invocation makes a call. -/
def publishes_on (E : Env) (fn0 priv0 : Nat) (q : store_log_forward) (act : Action) : Prop :=
  ∀ fn priv file line function string,
    E.code fn priv file line function string =
      if fn = fn0 ∧ priv = priv0 ∧ (⟨file, line, function, string⟩ : store_log_forward) = q
      then [act] else []

/-- A call of the logger from a callback: `log_printf_lf` when `lf` is set
(the macros `LOG_ERROR`, `LOG_WARNING`, `LOG_INFO`), `log_printf` otherwise. -/
def logger_call : Bool → Int → String → Nat → String → String → List Arg → Action
  | true, level, file, line, function, format, args =>
    Action.printf_lf level file line function format args
  | false, level, file, line, function, format, args =>
    Action.printf level file line function format args

/-- The string the logger hands on: the formatted text, with a newline after
it in `log_printf_lf`. -/
def printed_string : Bool → String → List Arg → String
  | true, format, args => String.mk (vsnprintf format.data args) ++ "\n"
  | false, format, args => String.mk (vsnprintf format.data args)

/-- The event the logger forwards for a file, line, function, format and
arguments. -/
def printed (lf : Bool) (file : String) (line : Nat) (function format : String)
    (args : List Arg) : store_log_forward :=
  ⟨strip_dirs file, line, function, printed_string lf format args⟩

/-- The invocations made for one queued event `e` when the registry is
`pre ++ c :: post` and `c` publishes `x` on being invoked with `q`: for
`e = q` the subscriptions up to `c` receive `q`, then all receive `x`, then
those after `c` receive `q`; any other event is received by all. -/
def replay_trace (pre : List log_callback) (c : log_callback) (post : List log_callback)
    (q x e : store_log_forward) : List Invocation :=
  if e = q then
    pre.map (deliver q.file q.line q.function q.string) ++
      [deliver q.file q.line q.function q.string c] ++
      (pre ++ c :: post).map (deliver x.file x.line x.function x.string) ++
      post.map (deliver q.file q.line q.function q.string)
  else (pre ++ c :: post).map (deliver e.file e.line e.function e.string)

/-- An environment in which the callback `(8, 80)` logs `"again"` at
informational level, with a newline, when it receives the event `"one\n"` of
`a.c`. -/
def echo : Env :=
  ⟨fun fn priv file line function string =>
    if fn = 8 ∧ priv = 80 ∧
        (⟨file, line, function, string⟩ : store_log_forward) = ⟨"a.c", 1, "f", "one\n"⟩
    then [logger_call true 2 "src/cb.c" 5 "cb" "again" []] else [],
   fun _ => true⟩

/-- No `log_catch` of the list brings the counter to 0: starting at counter
`c`, every `log_catch` is called at a counter other than 1. -/
def no_catch_to_zero : Int → List Op → Bool
  | _, [] => true
  | c, .log_try :: ops => no_catch_to_zero (c + 1) ops
  | c, .log_forward _ _ _ _ :: ops => no_catch_to_zero c ops
  | c, .log_catch :: ops => decide (c ≠ 1) && no_catch_to_zero (c - 1) ops
  | c, .log_rethrow :: ops => no_catch_to_zero (c - 1) ops

/-- The counter after one call that returned, from the counter before it. -/
def counter_after : Op → Int → Int
  | .log_try, c => c + 1
  | .log_forward _ _ _ _, c => c
  | .log_catch, c => c - 1
  | .log_rethrow, c => c - 1

/-- The message ends in a newline: the condition of the spec for a sink
write ("ONLY when the supplied message already ends in a newline"). -/
def ends_in_newline (string : String) : Bool :=
  string.data.getLast? == some '\n'

/-- The overrun diagnostic of `keep_alive` in state `s`: none unless
`clock - last_time > 1000`, else the `LOG_WARNING` event when
`gdb_actual_connections` is not zero and the `LOG_DEBUG` event when it is. -/
def overrun_diagnostic (s : State) : List Emitted :=
  if s.clock - s.last_time > 1000 then
    if s.gdb_actual_connections ≠ 0 then
      [⟨LOG_LVL_WARNING, FILE__, 482, "keep_alive",
        "keep_alive() was not invoked in the 1000ms timelimit. GDB alive packet not " ++
          "sent! (%lld). Workaround: increase \"set remotetimeout\" in GDB",
        [Arg.int (s.clock - s.last_time)], true⟩]
    else
      [⟨LOG_LVL_DEBUG, FILE__, 488, "keep_alive",
        "keep_alive() was not invoked in the 1000ms timelimit (%lld). This may cause " ++
          "trouble with GDB connections.",
        [Arg.int (s.clock - s.last_time)], true⟩]
  else []

/-- The liveness signal of `keep_alive` in state `s`: the liveness event when
`clock - last_time > 500`, none otherwise. -/
def liveness_signal (s : State) : List Emitted :=
  if s.clock - s.last_time > 500 then [liveness_event] else []

/-- One call of the keep-alive timer, with the reading of the clock at the
call. -/
inductive TimerOp where
  | keep_alive (t : Int)
  | kept_alive (t : Int)
  deriving DecidableEq, Repr

/-- The clock reading of a timer call. -/
def reading : TimerOp → Int
  | .keep_alive t => t
  | .kept_alive t => t

/-- Perform one timer call on the simulated clock. -/
def run_timer_op (E : Env) (fuel : Nat) (s : State) : TimerOp → Outcome
  | .keep_alive t => keep_alive E fuel { s with clock := t }
  | .kept_alive t => .ok (kept_alive { s with clock := t })

/-- Perform the timer calls of a list, first to last, as long as they
return. -/
def run_timer (E : Env) (fuel : Nat) : List TimerOp → State → Outcome
  | [], s => .ok s
  | op :: ops, s =>
    match run_timer_op E fuel s op with
    | .error e => .error e
    | .ok s1 => run_timer E fuel ops s1

/-- The clock readings of the calls do not decrease and start at or after
`t0`. -/
def clock_ordered : Int → List TimerOp → Bool
  | _, [] => true
  | t0, op :: ops => decide (t0 ≤ reading op) && clock_ordered (reading op) ops

/-- The last clock reading of the calls, `t0` when there is none. -/
def last_reading : Int → List TimerOp → Int
  | t0, [] => t0
  | _, op :: ops => last_reading (reading op) ops

/-! ## Sleeping -/

/-- The call `usleep(usec)` on the simulated clock: the clock moves on by the
time slept, in milliseconds. -/
def usleep (s : State) (usec : Nat) : State :=
  { s with clock := s.clock + ((usec / 1000 : Nat) : Int) }

/-- The constant `napTime` of `alive_sleep`. -/
def napTime : Nat := 10

/-- The loop `for (uint64_t i = 0; i < ms; i += napTime)` of `alive_sleep`,
entered with the value `i`; `i += napTime` is an addition of `uint64_t`.  The
first number bounds the iterations: an iteration that is due when it is 0 is
the fault `out_of_fuel`. -/
def alive_sleep_loop (E : Env) (fuel : Nat) (ms : Nat) : Nat → Nat → State → Outcome
  | 0, i, s => if i < ms then .error .out_of_fuel else .ok s
  | naps + 1, i, s =>
    if i < ms then
      let sleep_a_bit := ms - i
      let sleep_a_bit := if sleep_a_bit > napTime then napTime else sleep_a_bit
      match keep_alive E fuel (usleep s (sleep_a_bit * 1000)) with
      | .error e => .error e
      | .ok s1 => alive_sleep_loop E fuel ms naps ((i + napTime) % 18446744073709551616) s1
    else .ok s

/-- The function `alive_sleep`; `ms` is a `uint64_t`, `fuel` goes to the calls
of `keep_alive` and `naps` bounds the iterations of the loop. -/
def alive_sleep (E : Env) (fuel naps : Nat) (s : State) (ms : Nat) : Outcome :=
  alive_sleep_loop E fuel ms naps 0 s

/-- The slices of the spec for a wait of `ms` milliseconds ("bounded slices
(≤10ms each)"): slices of 10 ms, and a last shorter one for what is left. -/
def slices (ms : Nat) : List Nat :=
  List.replicate (ms / 10) 10 ++ (if ms % 10 = 0 then [] else [ms % 10])

/-- Sleep slice by slice as the spec has it: after every slice one call of
`keep_alive` ("calling `tick()` between slices"). -/
def sleep_in_slices (E : Env) (fuel : Nat) : List Nat → State → Outcome
  | [], s => .ok s
  | n :: ns, s =>
    match keep_alive E fuel (usleep s (n * 1000)) with
    | .error e => .error e
    | .ok s1 => sleep_in_slices E fuel ns s1

/-! ## Initialisation -/

/-- The value of a decimal digit. -/
def digit_value (c : Char) : Option Nat :=
  if 48 ≤ c.toNat ∧ c.toNat ≤ 57 then some (c.toNat - 48) else none

/-- The number written by a string of decimal digits, after the digits read
so far. -/
def parse_digits : List Char → Nat → Option Nat
  | [], acc => some acc
  | c :: cs, acc =>
    match digit_value c with
    | none => none
    | some d => parse_digits cs (acc * 10 + d)

/-- Modelled from the spec: `parse_int` of command.h (absent under src/),
"parses as a valid integer": an optional minus sign and decimal digits that
make up a value of type `int`; `none` stands for every result other than
`ERROR_OK`. -/
def parse_int (str : String) : Option Int :=
  match str.data with
  | [] => none
  | '-' :: cs =>
    if cs = [] then none
    else
      match parse_digits cs 0 with
      | none => none
      | some n => if n ≤ 2147483648 then some (-(n : Int)) else none
  | cs =>
    match parse_digits cs 0 with
    | none => none
    | some n => if n ≤ 2147483647 then some (n : Int) else none

/-- The function `log_init`; `debug_env` is what `getenv("OPENOCD_DEBUG_LEVEL")`
returns, `none` for NULL.  Which stream the sink is (`log_output = stderr`) is
not part of the state. -/
def log_init (s : State) (debug_env : Option String) : State :=
  let s1 := if s.debug_level = -1 then { s with debug_level := LOG_LVL_INFO } else s
  let s2 :=
    match debug_env with
    | none => s1
    | some str =>
      match parse_int str with
      | none => s1
      | some value =>
        if s1.debug_level ≥ LOG_LVL_SILENT ∧ s1.debug_level ≤ LOG_LVL_DEBUG then
          { s1 with debug_level := value }
        else s1
  { s2 with start := timeval_ms s2, last_time := timeval_ms s2 }

/-- An environment in which the callback with function pointer 9 unregisters
the subscription `(8, 80)` whenever it is invoked and all others make no
call. -/
def remover : Env :=
  ⟨fun fn _ _ _ _ _ => if fn = 9 then [Action.remove_callback 8 80] else [], fun _ => true⟩

/-- An environment in which the callback `(9, 90)` unregisters the
subscription `(7, 70)` when it receives the event `"done\n"` of `jtag.c` and no
other invocation makes a call. -/
def far_remover : Env :=
  ⟨fun fn priv file line function string =>
    if fn = 9 ∧ priv = 90 ∧
        (⟨file, line, function, string⟩ : store_log_forward) = ⟨"jtag.c", 12, "scan", "done\n"⟩
    then [Action.remove_callback 7 70] else [],
   fun _ => true⟩

/-! ## The command `debug_level` -/

/-- The command handler `handle_debug_level_command`, which returns the
return value and the state of log.c.  `parse_uint` of command.h (absent under
src/) is a parameter: it gives the number read from the argument or the error
code that `COMMAND_PARSE_NUMBER` returns; `new_level` is an `unsigned`, and
`MIN` compares it with `LOG_LVL_DEBUG` as unsigned numbers.  `fopen_ok` tells
whether `fopen("openocd.log", "w")` succeeds; the new sink is the empty file.
The calls of `command_print` write to the command context and are left out. -/
def handle_debug_level_command (E : Env) (fuel : Nat)
    (parse_uint : String → Except ErrorCode Nat) (fopen_ok : Bool) (s : State)
    (argv : List String) : Except Fault (ErrorCode × State) :=
  let parsed : Except ErrorCode State :=
    match argv with
    | [] => .ok s
    | [a] =>
      match parse_uint a with
      | .error e => .error e
      | .ok new_level =>
        .ok { s with debug_level := ((min (new_level % 4294967296) LOG_LVL_DEBUG.toNat : Nat) : Int) }
    | _ => .error ERROR_COMMAND_SYNTAX_ERROR
  match parsed with
  | .error e => .ok (e, s)
  | .ok s1 =>
    if s1.debug_level ≥ LOG_LVL_DEBUG ∧ s1.server_use_pipes = 1 then
      if fopen_ok then
        match LOG_WARNING E fuel { s1 with log_output := [] } FILE__ 295
            "handle_debug_level_command" "enabling log output as we are using pipes" [] with
        | .error e => .error e
        | .ok s2 => .ok (ERROR_OK, s2)
      else .ok (ERROR_OK, s1)
    else .ok (ERROR_OK, s1)

/-! # Theorems -/

/-! ## Registry lemmas -/

theorem registered_iff (fn priv : Nat) (l : List log_callback) :
    registered fn priv l = true ↔ ∃ cb ∈ l, cb.fn = fn ∧ cb.priv = priv := by
  induction l with
  | nil => simp [registered]
  | cons c rest ih =>
    by_cases h : c.fn = fn ∧ c.priv = priv
    · simp [registered, h]
    · simp only [registered, h, if_false, ih, List.mem_cons, exists_eq_or_imp, false_or]

theorem unlink_none (fn priv : Nat) (l : List log_callback)
    (h : ∀ cb ∈ l, ¬ (cb.fn = fn ∧ cb.priv = priv)) : unlink fn priv l = none := by
  induction l with
  | nil => rfl
  | cons c rest ih =>
    have hc : ¬ (c.fn = fn ∧ c.priv = priv) := h c (List.mem_cons_self _ _)
    have hr := ih (fun cb hcb => h cb (List.mem_cons_of_mem _ hcb))
    simp only [unlink, hc, if_false, hr]

theorem unlink_split (fn priv : Nat) (pre : List log_callback) (c : log_callback)
    (post : List log_callback) (hpre : ∀ cb ∈ pre, ¬ (cb.fn = fn ∧ cb.priv = priv))
    (hc : c.fn = fn ∧ c.priv = priv) :
    unlink fn priv (pre ++ c :: post) = some (pre ++ post) := by
  induction pre with
  | nil => simp [unlink, hc]
  | cons p rest ih =>
    have hp : ¬ (p.fn = fn ∧ p.priv = priv) := hpre p (List.mem_cons_self _ _)
    have hr := ih (fun cb hcb => hpre cb (List.mem_cons_of_mem _ hcb))
    simp [unlink, hp, hr]

theorem first_match_split (fn priv : Nat) (l : List log_callback)
    (h : ∃ cb ∈ l, cb.fn = fn ∧ cb.priv = priv) :
    ∃ pre c post, l = pre ++ c :: post ∧
      (∀ cb ∈ pre, ¬ (cb.fn = fn ∧ cb.priv = priv)) ∧ (c.fn = fn ∧ c.priv = priv) := by
  induction l with
  | nil => simp at h
  | cons x rest ih =>
    by_cases hx : x.fn = fn ∧ x.priv = priv
    · exact ⟨[], x, rest, rfl, by simp, hx⟩
    · have hrest : ∃ cb ∈ rest, cb.fn = fn ∧ cb.priv = priv := by
        obtain ⟨cb, hmem, hcb⟩ := h
        rcases List.mem_cons.mp hmem with heq | hin
        · exact absurd (heq ▸ hcb) hx
        · exact ⟨cb, hin, hcb⟩
      obtain ⟨pre, c, post, hl, hpre, hc⟩ := ih hrest
      refine ⟨x :: pre, c, post, by simp [hl], ?_, hc⟩
      intro cb hcb
      rcases List.mem_cons.mp hcb with heq | hin
      · exact heq ▸ hx
      · exact hpre cb hin

/-! ## What the forwarding path leaves alone -/

theorem frame_refl (s : State) : frame s s :=
  ⟨rfl, rfl, rfl, rfl, rfl, rfl, rfl, rfl, fun _ => rfl⟩

theorem frame_trans {a b c : State} (h1 : frame a b) (h2 : frame b c) : frame a c := by
  obtain ⟨a1, a2, a3, a4, a5, a6, a7, a8, a9⟩ := h1
  obtain ⟨b1, b2, b3, b4, b5, b6, b7, b8, b9⟩ := h2
  refine ⟨b1.trans a1, b2.trans a2, b3.trans a3, b4.trans a4, b5.trans a5, b6.trans a6,
    b7.trans a7, b8.trans a8, fun h => ?_⟩
  rw [b9 (a1.trans h), a9 h]

theorem frame_add (E : Env) (s : State) (fn priv : Nat) :
    frame s (log_add_callback E s fn priv).2 := by
  unfold log_add_callback
  split
  · exact frame_refl s
  · split <;> exact ⟨rfl, rfl, rfl, rfl, rfl, rfl, rfl, rfl, fun _ => rfl⟩

theorem frame_remove (s : State) (fn priv : Nat) :
    frame s (log_remove_callback s fn priv).2 := by
  unfold log_remove_callback
  split
  · exact ⟨rfl, rfl, rfl, rfl, rfl, rfl, rfl, rfl, fun _ => rfl⟩
  · exact frame_refl s

theorem frame_foldlM (E : Env) (f : Nat)
    (h : ∀ act s s1, callback_action E f act s = .ok s1 → frame s s1)
    (acts : List Action) (s s1 : State)
    (hr : acts.foldlM (fun st act => callback_action E f act st) s = .ok s1) : frame s s1 := by
  induction acts generalizing s with
  | nil =>
    simp only [List.foldlM_nil] at hr
    cases hr
    exact frame_refl _
  | cons a rest ih =>
    rw [List.foldlM_cons] at hr
    cases hstep : callback_action E f a s with
    | error e => rw [hstep] at hr; cases hr
    | ok s2 =>
      rw [hstep] at hr
      exact frame_trans (h a s s2 hstep) (ih s2 hr)

/-! ## The non-recursive pieces -/

theorem log_puts_sink_ok {s s1 : State} {level : Int} {file : String} {line : Nat}
    {function string : String}
    (h : log_puts_sink s level file line function string = .ok s1) :
    ∃ out, s1 = { s with log_output := s.log_output ++ out } := by
  unfold log_puts_sink at h
  split at h
  · split at h
    · simp only at h
      split at h
      · cases h
      · cases h; exact ⟨_, rfl⟩
    · split at h
      · split at h
        · split at h
          · split at h
            · cases h
            · cases h; exact ⟨_, rfl⟩
          · cases h; exact ⟨_, rfl⟩
        · cases h; exact ⟨[], by simp⟩
      · cases h; exact ⟨[], by simp⟩
  · cases h; exact ⟨[], by simp⟩

theorem frame_all (E : Env) (fuel : Nat) : frame_at E fuel := by
  induction fuel using Nat.strong_induction_on with
  | _ fuel ih =>
    refine ⟨?_, ?_, ?_, ?_, ?_, ?_⟩
    · intro s file line function string s1 h
      cases fuel with
      | zero =>
        rw [log_forward] at h
        split at h
        · cases h
        · rename_i hne
          cases h
          exact ⟨rfl, rfl, rfl, rfl, rfl, rfl, rfl, rfl, fun h0 => absurd h0 hne⟩
      | succ f =>
        rw [log_forward] at h
        split at h
        · exact (ih f (Nat.lt_succ_self f)).2.1 _ _ _ _ _ _ _ h
        · rename_i hne
          cases h
          exact ⟨rfl, rfl, rfl, rfl, rfl, rfl, rfl, rfl, fun h0 => absurd h0 hne⟩
    · intro p s file line function string s1 h
      cases p with
      | none =>
        rw [forward_loop] at h
        cases h
        exact frame_refl _
      | some a =>
        cases fuel with
        | zero => rw [forward_loop] at h; cases h
        | succ f =>
          rw [forward_loop] at h
          split at h
          · cases h
          · rename_i cb next hd
            split at h
            · cases h
            · rename_i s2 hfold
              have h1 := frame_foldlM E f (ih f (Nat.lt_succ_self f)).2.2.1 _ _ _ hfold
              have h2 := (ih f (Nat.lt_succ_self f)).2.1 _ _ _ _ _ _ _ h
              refine frame_trans ?_ (frame_trans h1 h2)
              exact ⟨rfl, rfl, rfl, rfl, rfl, rfl, rfl, rfl, fun _ => rfl⟩
    · intro act s s1 h
      cases act with
      | add_callback fn priv =>
        rw [callback_action] at h
        cases h
        exact frame_add E s fn priv
      | remove_callback fn priv =>
        rw [callback_action] at h
        cases h
        exact frame_remove s fn priv
      | printf level file line function format args =>
        cases fuel with
        | zero => rw [callback_action] at h; cases h
        | succ f =>
          rw [callback_action] at h
          exact (ih f (Nat.lt_succ_self f)).2.2.2.2.1 _ _ _ _ _ _ _ _ h
      | printf_lf level file line function format args =>
        cases fuel with
        | zero => rw [callback_action] at h; cases h
        | succ f =>
          rw [callback_action] at h
          exact (ih f (Nat.lt_succ_self f)).2.2.2.2.2 _ _ _ _ _ _ _ _ h
    · intro s level file line function string s1 h
      have hput : ∀ s2, log_puts_sink s level (strip_dirs file) line function string = .ok s2 →
          frame s s2 := by
        intro s2 h2
        obtain ⟨out, rfl⟩ := log_puts_sink_ok h2
        exact ⟨rfl, rfl, rfl, rfl, rfl, rfl, rfl, rfl, fun _ => rfl⟩
      cases fuel with
      | zero =>
        rw [log_puts] at h
        split at h
        · cases h
          exact ⟨rfl, rfl, rfl, rfl, rfl, rfl, rfl, rfl, fun _ => rfl⟩
        · simp only at h
          split at h
          · cases h
          · rename_i s2 h2
            split at h
            · cases h
            · cases h
              exact hput _ h2
      | succ f =>
        rw [log_puts] at h
        split at h
        · cases h
          exact ⟨rfl, rfl, rfl, rfl, rfl, rfl, rfl, rfl, fun _ => rfl⟩
        · simp only at h
          split at h
          · cases h
          · rename_i s2 h2
            split at h
            · exact frame_trans (hput _ h2) ((ih f (Nat.lt_succ_self f)).1 _ _ _ _ _ _ h)
            · cases h
              exact hput _ h2
    · intro s level file line function format args s1 h
      cases fuel with
      | zero =>
        rw [log_printf] at h
        simp only [alloc_vprintf] at h
        split at h
        · cases h
          exact ⟨rfl, rfl, rfl, rfl, rfl, rfl, rfl, rfl, fun _ => rfl⟩
        · split at h
          · rename_i hal
            split at hal
            · cases hal
            · cases hal
              cases h
              exact ⟨rfl, rfl, rfl, rfl, rfl, rfl, rfl, rfl, fun _ => rfl⟩
          · cases h
      | succ f =>
        rw [log_printf] at h
        simp only [alloc_vprintf] at h
        split at h
        · cases h
          exact ⟨rfl, rfl, rfl, rfl, rfl, rfl, rfl, rfl, fun _ => rfl⟩
        · split at h
          · rename_i hal
            split at hal
            · cases hal
            · cases hal
              cases h
              exact ⟨rfl, rfl, rfl, rfl, rfl, rfl, rfl, rfl, fun _ => rfl⟩
          · rename_i hal
            split at hal
            · cases hal
              refine frame_trans ?_ ((ih f (Nat.lt_succ_self f)).2.2.2.1 _ _ _ _ _ _ _ h)
              exact ⟨rfl, rfl, rfl, rfl, rfl, rfl, rfl, rfl, fun _ => rfl⟩
            · cases hal
    · intro s level file line function format args s1 h
      cases fuel with
      | zero =>
        rw [log_printf_lf] at h
        simp only [alloc_vprintf] at h
        split at h
        · cases h
          exact ⟨rfl, rfl, rfl, rfl, rfl, rfl, rfl, rfl, fun _ => rfl⟩
        · split at h
          · rename_i hal
            split at hal
            · cases hal
            · cases hal
              cases h
              exact ⟨rfl, rfl, rfl, rfl, rfl, rfl, rfl, rfl, fun _ => rfl⟩
          · cases h
      | succ f =>
        rw [log_printf_lf] at h
        simp only [alloc_vprintf] at h
        split at h
        · cases h
          exact ⟨rfl, rfl, rfl, rfl, rfl, rfl, rfl, rfl, fun _ => rfl⟩
        · split at h
          · rename_i hal
            split at hal
            · cases hal
            · cases hal
              cases h
              exact ⟨rfl, rfl, rfl, rfl, rfl, rfl, rfl, rfl, fun _ => rfl⟩
          · rename_i hal
            split at hal
            · cases hal
              refine frame_trans ?_ ((ih f (Nat.lt_succ_self f)).2.2.2.1 _ _ _ _ _ _ _ h)
              exact ⟨rfl, rfl, rfl, rfl, rfl, rfl, rfl, rfl, fun _ => rfl⟩
            · cases hal

/-! ## C2: filtering -/

/-- C2. An event whose level is strictly greater than `debug_level` is dropped
by `log_printf` and by `log_printf_lf` before anything else happens: both
return, with every amount of fuel, in the state they were called in except
that `count` is one higher (and the record `emitted` has the event).  So
`alloc_vprintf_calls`, the sink `log_output`, the callback invocations `calls`
and the deferral queue `log_head` are those of the call state. -/
theorem filtered_event_only_counts (E : Env) (fuel : Nat) (s : State) (level : Int)
    (file : String) (line : Nat) (function format : String) (args : List Arg)
    (h : level > s.debug_level) :
    log_printf E fuel s level file line function format args =
        .ok { s with count := s.count + 1,
                     emitted := s.emitted ++ [⟨level, file, line, function, format, args, false⟩] } ∧
    log_printf_lf E fuel s level file line function format args =
        .ok { s with count := s.count + 1,
                     emitted := s.emitted ++ [⟨level, file, line, function, format, args, true⟩] } := by
  constructor
  · cases fuel <;> rw [log_printf] <;> simp only [h, if_true]
  · cases fuel <;> rw [log_printf_lf] <;> simp only [h, if_true]

/-- C2 at a debug event under the threshold 2 (informational). -/
theorem filtered_event_only_counts_witness :
    (3 : Int) > ({ debug_level := 2 } : State).debug_level ∧
    log_printf quiet 0 { debug_level := 2 } 3 "jtag.c" 7 "scan" "%d bits" [Arg.int 5] =
        .ok { debug_level := 2, count := 1,
              emitted := [⟨3, "jtag.c", 7, "scan", "%d bits", [Arg.int 5], false⟩] } ∧
    log_printf_lf quiet 0 { debug_level := 2 } 3 "jtag.c" 7 "scan" "%d bits" [Arg.int 5] =
        .ok { debug_level := 2, count := 1,
              emitted := [⟨3, "jtag.c", 7, "scan", "%d bits", [Arg.int 5], true⟩] } :=
  ⟨by decide, filtered_event_only_counts quiet 0 { debug_level := 2 } 3 "jtag.c" 7 "scan"
    "%d bits" [Arg.int 5] (by decide)⟩

/-! ## C6: raw output -/

/-- C6. At the level `LOG_LVL_OUTPUT`, `log_puts` returns with every amount of
fuel, for every state (so every value of `log_forward_count` and every
registry) and every message, in the call state with exactly the message
appended to the sink: nothing is put in front of it or after it, `calls` is
unchanged (no callback runs) and `log_head` is unchanged. -/
theorem raw_output_bypasses (E : Env) (fuel : Nat) (s : State) (file : String) (line : Nat)
    (function string : String) :
    log_puts E fuel s LOG_LVL_OUTPUT file line function string =
      .ok { s with log_output := s.log_output ++ [string] } := by
  cases fuel <;> rw [log_puts] <;> simp

/-! ## C9: unregistering -/

/-- C9. When some subscription has the identity `(fn, priv)`,
`log_remove_callback` returns `ERROR_OK` and the registry `pre ++ c :: post`,
where `c` is the first node with that identity, becomes `pre ++ post`; nothing
else changes.  When none has it, the call returns `ERROR_INVALID_ARGUMENTS`
and the state is unchanged. -/
theorem remove_unlinks_first_match (s : State) (fn priv : Nat) :
    ((∃ cb ∈ s.log_callbacks, cb.fn = fn ∧ cb.priv = priv) →
      ∃ pre c post, s.log_callbacks = pre ++ c :: post ∧
        (∀ cb ∈ pre, ¬ (cb.fn = fn ∧ cb.priv = priv)) ∧ (c.fn = fn ∧ c.priv = priv) ∧
        log_remove_callback s fn priv = (ERROR_OK, { s with log_callbacks := pre ++ post })) ∧
    ((∀ cb ∈ s.log_callbacks, ¬ (cb.fn = fn ∧ cb.priv = priv)) →
      log_remove_callback s fn priv = (ERROR_INVALID_ARGUMENTS, s)) := by
  constructor
  · intro h
    obtain ⟨pre, c, post, hl, hpre, hc⟩ := first_match_split fn priv _ h
    refine ⟨pre, c, post, hl, hpre, hc, ?_⟩
    unfold log_remove_callback
    rw [hl, unlink_split fn priv pre c post hpre hc]
  · intro h
    unfold log_remove_callback
    rw [unlink_none fn priv _ h]

/-- C9 on a registry of three, removing the middle one, and removing one that
is not there. -/
theorem remove_unlinks_first_match_witness :
    log_remove_callback { log_callbacks := [⟨2, 7, 70⟩, ⟨1, 8, 80⟩, ⟨0, 9, 90⟩] } 8 80 =
      (ERROR_OK, { log_callbacks := [⟨2, 7, 70⟩, ⟨0, 9, 90⟩] }) ∧
    log_remove_callback { log_callbacks := [⟨2, 7, 70⟩, ⟨1, 8, 80⟩, ⟨0, 9, 90⟩] } 8 81 =
      (ERROR_INVALID_ARGUMENTS, { log_callbacks := [⟨2, 7, 70⟩, ⟨1, 8, 80⟩, ⟨0, 9, 90⟩] }) := by
  have h := remove_unlinks_first_match
    { log_callbacks := [⟨2, 7, 70⟩, ⟨1, 8, 80⟩, ⟨0, 9, 90⟩] } 8 81
  exact ⟨by decide, h.2 (by decide)⟩

/-! ## C3: registering twice -/

theorem countP_is_sub_zero (fn priv : Nat) (l : List log_callback)
    (h : ∀ cb ∈ l, ¬ (cb.fn = fn ∧ cb.priv = priv)) : l.countP (is_sub fn priv) = 0 := by
  rw [List.countP_eq_zero]
  intro cb hcb
  simpa [is_sub] using h cb hcb

theorem countP_is_sub_one (fn priv : Nat) (l : List log_callback)
    (hid : (l.map identity).Nodup) (h : ∃ cb ∈ l, cb.fn = fn ∧ cb.priv = priv) :
    l.countP (is_sub fn priv) = 1 := by
  induction l with
  | nil => simp at h
  | cons c rest ih =>
    rw [List.map_cons, List.nodup_cons] at hid
    by_cases hc : c.fn = fn ∧ c.priv = priv
    · have hrest : ∀ cb ∈ rest, ¬ (cb.fn = fn ∧ cb.priv = priv) := by
        intro cb hcb hm
        apply hid.1
        have : identity cb = identity c := by
          simp only [identity, hm.1, hm.2, hc.1, hc.2]
        rw [← this]
        exact List.mem_map_of_mem identity hcb
      rw [List.countP_cons, countP_is_sub_zero fn priv rest hrest]
      simp [is_sub, hc]
    · have hrest : ∃ cb ∈ rest, cb.fn = fn ∧ cb.priv = priv := by
        obtain ⟨cb, hmem, hcb⟩ := h
        rcases List.mem_cons.mp hmem with heq | hin
        · exact absurd (heq ▸ hcb) hc
        · exact ⟨cb, hin, hcb⟩
      rw [List.countP_cons, ih hid.2 hrest]
      simp [is_sub, hc]

/-- The registry keeps its identities pairwise distinct under
`log_add_callback`. -/
theorem add_keeps_identities_distinct (E : Env) (s : State) (fn priv : Nat)
    (hid : (s.log_callbacks.map identity).Nodup) :
    ((log_add_callback E s fn priv).2.log_callbacks.map identity).Nodup := by
  unfold log_add_callback
  split
  · exact hid
  · rename_i hreg
    split
    · simp only [List.map_cons, List.nodup_cons]
      refine ⟨?_, hid⟩
      intro hmem
      apply hreg
      obtain ⟨cb, hcb, heq⟩ := List.mem_map.mp hmem
      rw [registered_iff]
      simp only [identity, Prod.mk.injEq] at heq
      exact ⟨cb, hcb, heq⟩
    · exact hid

/-- C3. In a registry whose identities are pairwise distinct (every registry
built by `log_add_callback` and `log_remove_callback` is):
(1) if `log_add_callback(fn, priv)` returns `ERROR_OK`, calling it again in the
resulting state returns `ERROR_INVALID_ARGUMENTS`, changes nothing and exactly
one subscription has that identity;
(2) whenever a subscription with identity `(fn, priv)` is registered, the call
returns `ERROR_INVALID_ARGUMENTS`, changes nothing and exactly one subscription
has that identity;
(3) `ERROR_INVALID_ARGUMENTS` is not the allocation-failure code
`ERROR_BUF_TOO_SMALL`;
(4) when no registered subscription has both the same `fn` and the same `priv`
and the allocation succeeds, the call returns `ERROR_OK` and the new node is
the head of the list, in front of the old list;
(5) when the allocation fails instead, the call returns `ERROR_BUF_TOO_SMALL`
and the registry is unchanged. -/
theorem duplicate_registration_rejected (E : Env) (s : State) (fn priv : Nat)
    (hid : (s.log_callbacks.map identity).Nodup) :
    (∀ s1, log_add_callback E s fn priv = (ERROR_OK, s1) →
      log_add_callback E s1 fn priv = (ERROR_INVALID_ARGUMENTS, s1) ∧
      s1.log_callbacks.countP (is_sub fn priv) = 1) ∧
    ((∃ cb ∈ s.log_callbacks, cb.fn = fn ∧ cb.priv = priv) →
      log_add_callback E s fn priv = (ERROR_INVALID_ARGUMENTS, s) ∧
      s.log_callbacks.countP (is_sub fn priv) = 1) ∧
    ERROR_INVALID_ARGUMENTS ≠ ERROR_BUF_TOO_SMALL ∧
    ((∀ cb ∈ s.log_callbacks, ¬ (cb.fn = fn ∧ cb.priv = priv)) → E.malloc_ok s.mallocs = true →
      log_add_callback E s fn priv =
        (ERROR_OK, { s with log_callbacks := ⟨s.mallocs, fn, priv⟩ :: s.log_callbacks,
                            mallocs := s.mallocs + 1 })) ∧
    ((∀ cb ∈ s.log_callbacks, ¬ (cb.fn = fn ∧ cb.priv = priv)) → E.malloc_ok s.mallocs = false →
      log_add_callback E s fn priv = (ERROR_BUF_TOO_SMALL, { s with mallocs := s.mallocs + 1 })) := by
  have hdup : ∀ t : State, (t.log_callbacks.map identity).Nodup →
      (∃ cb ∈ t.log_callbacks, cb.fn = fn ∧ cb.priv = priv) →
      log_add_callback E t fn priv = (ERROR_INVALID_ARGUMENTS, t) ∧
      t.log_callbacks.countP (is_sub fn priv) = 1 := by
    intro t ht hin
    refine ⟨?_, countP_is_sub_one fn priv _ ht hin⟩
    unfold log_add_callback
    rw [(registered_iff fn priv _).mpr hin]
    rfl
  have hnot : (∀ cb ∈ s.log_callbacks, ¬ (cb.fn = fn ∧ cb.priv = priv)) →
      registered fn priv s.log_callbacks = false := by
    intro h
    cases hr : registered fn priv s.log_callbacks with
    | false => rfl
    | true =>
      obtain ⟨cb, hcb, hm⟩ := (registered_iff fn priv _).mp hr
      exact absurd hm (h cb hcb)
  refine ⟨?_, hdup s hid, by decide, ?_, ?_⟩
  · intro s1 h1
    have hid1 := add_keeps_identities_distinct E s fn priv hid
    rw [h1] at hid1
    apply hdup s1 hid1
    unfold log_add_callback at h1
    split at h1
    · cases h1
    · split at h1
      · cases h1
        exact ⟨⟨s.mallocs, fn, priv⟩, List.mem_cons_self _ _, rfl, rfl⟩
      · cases h1
  · intro h hm
    unfold log_add_callback
    simp [hnot h, hm]
  · intro h hm
    unfold log_add_callback
    simp [hnot h, hm]

/-- C3 on the registry holding `(7, 70)`: registering `(8, 80)` and then
`(8, 80)` again. -/
theorem duplicate_registration_rejected_witness :
    (([⟨0, 7, 70⟩] : List log_callback).map identity).Nodup ∧
    log_add_callback quiet { log_callbacks := [⟨0, 7, 70⟩], mallocs := 1 } 8 80 =
      (ERROR_OK, { log_callbacks := [⟨1, 8, 80⟩, ⟨0, 7, 70⟩], mallocs := 2 }) ∧
    log_add_callback quiet { log_callbacks := [⟨1, 8, 80⟩, ⟨0, 7, 70⟩], mallocs := 2 } 8 80 =
      (ERROR_INVALID_ARGUMENTS, { log_callbacks := [⟨1, 8, 80⟩, ⟨0, 7, 70⟩], mallocs := 2 }) ∧
    ([⟨1, 8, 80⟩, ⟨0, 7, 70⟩] : List log_callback).countP (is_sub 8 80) = 1 := by
  have h := duplicate_registration_rejected quiet
    { log_callbacks := [⟨0, 7, 70⟩], mallocs := 1 } 8 80 (by decide)
  have h4 := h.2.2.2.1 (by decide) rfl
  have h1 := h.1 _ h4
  exact ⟨by decide, h4, h1.1, h1.2⟩

/-! ## The dispatch loop with callbacks that do not call back -/

theorem deref_mid (pre : List log_callback) (c : log_callback) (rest : List log_callback)
    (hnd : ((pre ++ c :: rest).map (fun cb => cb.addr)).Nodup) :
    deref c.addr (pre ++ c :: rest) = some (c, rest.head?.map (fun n => n.addr)) := by
  induction pre with
  | nil => simp [deref]
  | cons p pre ih =>
    simp only [List.cons_append, List.map_cons, List.nodup_cons] at hnd
    have hne : p.addr ≠ c.addr := by
      intro heq
      apply hnd.1
      rw [heq]
      exact List.mem_map_of_mem (fun cb : log_callback => cb.addr) (by simp)
    simp only [List.cons_append, deref, hne, if_false]
    exact ih hnd.2

theorem forward_loop_inert (E : Env) (hE : inert E) (file : String) (line : Nat)
    (function string : String) (rest : List log_callback) :
    ∀ (pre : List log_callback) (s : State) (fuel : Nat),
      s.log_callbacks = pre ++ rest →
      ((pre ++ rest).map (fun cb => cb.addr)).Nodup →
      rest.length ≤ fuel →
      forward_loop E fuel (rest.head?.map (fun n => n.addr)) s file line function string =
        .ok { s with calls := s.calls ++ rest.map (deliver file line function string) } := by
  induction rest with
  | nil =>
    intro pre s fuel _ _ _
    simp [forward_loop]
  | cons c rest ih =>
    intro pre s fuel hs hnd hfuel
    cases fuel with
    | zero => simp at hfuel
    | succ f =>
      simp only [List.head?_cons, Option.map_some']
      have hd : deref c.addr s.log_callbacks = some (c, rest.head?.map (fun n => n.addr)) := by
        rw [hs]
        exact deref_mid pre c rest hnd
      rw [forward_loop, hd]
      simp only [hE c.fn c.priv, List.foldlM_nil, pure, Except.pure]
      have hs1 : ({ s with calls := s.calls ++ [⟨c.fn, c.priv, file, line, function, string⟩] } :
          State).log_callbacks = (pre ++ [c]) ++ rest := by simp [hs]
      rw [ih (pre ++ [c]) _ f hs1 (by simpa using hnd) (by simpa using hfuel)]
      simp [deliver]

theorem log_forward_inert (E : Env) (hE : inert E) (s : State) (fuel : Nat) (file : String)
    (line : Nat) (function string : String) (h0 : s.log_forward_count = 0)
    (hnd : (s.log_callbacks.map (fun cb => cb.addr)).Nodup)
    (hfuel : s.log_callbacks.length < fuel) :
    log_forward E fuel s file line function string =
      .ok { s with calls := s.calls ++ s.log_callbacks.map (deliver file line function string) } := by
  cases fuel with
  | zero => simp at hfuel
  | succ f =>
    rw [log_forward, if_pos h0]
    have h := forward_loop_inert E hE file line function string s.log_callbacks [] s f rfl
      (by simpa using hnd) (by omega)
    exact h

/-! ## C10: dispatch order -/

theorem replay_inert (E : Env) (hE : inert E) (fuel : Nat) (queue : List store_log_forward) :
    ∀ (s : State), s.log_forward_count = 0 →
      (s.log_callbacks.map (fun cb => cb.addr)).Nodup → s.log_callbacks.length < fuel →
      replay E fuel queue s =
        .ok { s with calls := s.calls ++ deliveries s.log_callbacks queue } := by
  induction queue with
  | nil =>
    intro s _ _ _
    simp [replay, deliveries]
  | cons e rest ih =>
    intro s h0 hnd hfuel
    rw [replay, log_forward_inert E hE s fuel e.file e.line e.function e.string h0 hnd hfuel]
    simp only
    rw [ih ({ s with calls := s.calls ++
      s.log_callbacks.map (deliver e.file e.line e.function e.string) } : State) h0 hnd hfuel]
    simp [deliveries]

theorem published_append (a b : List Op) : published (a ++ b) = published a ++ published b := by
  induction a with
  | nil => rfl
  | cons op rest ih =>
    cases op <;> simp [published, ih]

/-- The state inside a region: only the counter and the queue have moved. -/
theorem run_nested (E : Env) (hE : inert E) (fuel : Nat) (ops : List Op) :
    ∀ (d : Nat) (s : State), s.log_forward_count = (d : Int) → 0 < d →
      (s.log_callbacks.map (fun cb => cb.addr)).Nodup → s.log_callbacks.length < fuel →
      nested d ops = true →
      run E fuel ops s =
        .ok { s with log_forward_count := 0, log_head := [],
                     calls := s.calls ++ deliveries s.log_callbacks (s.log_head ++ published ops) } ∧
      ∀ pre suf, ops = pre ++ suf → suf ≠ [] →
        ∃ sp, run E fuel pre s = .ok sp ∧ sp.calls = s.calls ∧ 0 < sp.log_forward_count := by
  induction ops with
  | nil =>
    intro d s _ _ _ _ hn
    simp [nested] at hn
  | cons op ops ih =>
    intro d s hd hpos hnd hfuel hn
    have hprefix : ∀ (s1 : State), run_op E fuel s op = .ok s1 → s1.calls = s.calls →
        (∀ pre suf, ops = pre ++ suf → suf ≠ [] →
          ∃ sp, run E fuel pre s1 = .ok sp ∧ sp.calls = s1.calls ∧ 0 < sp.log_forward_count) →
        ∀ pre suf, op :: ops = pre ++ suf → suf ≠ [] →
          ∃ sp, run E fuel pre s = .ok sp ∧ sp.calls = s.calls ∧ 0 < sp.log_forward_count := by
      intro s1 hop hcalls hrest pre suf hsplit hsuf
      cases pre with
      | nil => exact ⟨s, rfl, rfl, by omega⟩
      | cons p pre =>
        simp only [List.cons_append, List.cons.injEq] at hsplit
        obtain ⟨hp, hops⟩ := hsplit
        subst hp
        obtain ⟨sp, h1, h2, h3⟩ := hrest pre suf hops hsuf
        exact ⟨sp, by rw [run, hop]; exact h1, h2.trans hcalls, h3⟩
    cases op with
    | log_catch => simp [nested] at hn
    | log_try =>
      simp only [nested] at hn
      have hd1 : (log_try s).log_forward_count = ((d + 1 : Nat) : Int) := by
        simp [log_try, hd]
      obtain ⟨hrun, hpre⟩ := ih (d + 1) (log_try s) hd1 (Nat.succ_pos d) hnd hfuel hn
      refine ⟨?_, hprefix (log_try s) rfl rfl hpre⟩
      rw [run]
      simp only [run_op]
      rw [hrun]
      simp [log_try, published]
    | log_forward file line function string =>
      simp only [nested] at hn
      have hne : s.log_forward_count ≠ 0 := by omega
      have hfw : log_forward E fuel s file line function string =
          .ok { s with log_head := s.log_head ++ [⟨file, line, function, string⟩] } := by
        cases fuel <;> rw [log_forward, if_neg hne]
      obtain ⟨hrun, hpre⟩ := ih d
        ({ s with log_head := s.log_head ++ [⟨file, line, function, string⟩] } : State)
        hd hpos hnd hfuel hn
      refine ⟨?_, hprefix _ hfw rfl hpre⟩
      rw [run]
      simp only [run_op]
      rw [hfw]
      simp only
      rw [hrun]
      simp [published]
    | log_rethrow =>
      cases d with
      | zero => exact absurd hpos (Nat.lt_irrefl 0)
      | succ d =>
        cases d with
        | zero =>
          simp only [nested, List.isEmpty_iff] at hn
          subst hn
          have hcatch : log_catch s = .ok { s with log_forward_count := s.log_forward_count - 1 } := by
            unfold log_catch
            rw [if_pos (by omega)]
          have hre : log_rethrow E fuel s =
              .ok { s with log_forward_count := 0, log_head := [],
                           calls := s.calls ++ deliveries s.log_callbacks s.log_head } := by
            unfold log_rethrow
            rw [hcatch]
            simp only
            have hz : s.log_forward_count - 1 = 0 := by omega
            rw [if_pos hz, replay_inert E hE fuel s.log_head
              ({ s with log_forward_count := s.log_forward_count - 1 } : State) hz hnd hfuel]
            simp [hz]
          refine ⟨?_, ?_⟩
          · rw [run]
            simp only [run_op]
            rw [hre]
            simp [run, published]
          · intro pre suf hsplit hsuf
            cases pre with
            | nil => exact ⟨s, rfl, rfl, by omega⟩
            | cons p pre =>
              simp only [List.cons_append, List.cons.injEq] at hsplit
              obtain ⟨_, hops⟩ := hsplit
              have : suf = [] := by
                have := congrArg List.length hops
                simp at this
                exact List.eq_nil_of_length_eq_zero (by omega)
              exact absurd this hsuf
        | succ d =>
          simp only [nested] at hn
          have hcatch : log_catch s = .ok { s with log_forward_count := s.log_forward_count - 1 } := by
            unfold log_catch
            rw [if_pos (by omega)]
          have hre : log_rethrow E fuel s =
              .ok { s with log_forward_count := s.log_forward_count - 1 } := by
            unfold log_rethrow
            rw [hcatch]
            simp only
            rw [if_neg (by omega)]
          have hd1 : ({ s with log_forward_count := s.log_forward_count - 1 } :
              State).log_forward_count = ((d + 1 : Nat) : Int) := by
            simp only [hd]
            push_cast
            ring
          obtain ⟨hrun, hpre⟩ := ih (d + 1)
            ({ s with log_forward_count := s.log_forward_count - 1 } : State)
            hd1 (Nat.succ_pos d) hnd hfuel hn
          refine ⟨?_, hprefix _ hre rfl hpre⟩
          rw [run]
          simp only [run_op]
          rw [hre]
          simp only
          rw [hrun]
          simp [published]
theorem filter_deliver_one (registry : List log_callback) (cb : log_callback)
    (hone : registry.countP (is_sub cb.fn cb.priv) = 1)
    (file : String) (line : Nat) (function string : String) :
    (registry.map (deliver file line function string)).filter (invoked_on cb.fn cb.priv) =
      [deliver file line function string cb] := by
  have hcomp : (invoked_on cb.fn cb.priv) ∘ (deliver file line function string) =
      is_sub cb.fn cb.priv := by
    funext x
    simp [invoked_on, deliver, is_sub]
  rw [List.filter_map, hcomp]
  have hlen : (registry.filter (is_sub cb.fn cb.priv)).length = 1 := by
    rw [← List.countP_eq_length_filter]
    exact hone
  match hf : registry.filter (is_sub cb.fn cb.priv), hlen with
  | [x], _ =>
    have hx : x ∈ registry.filter (is_sub cb.fn cb.priv) := by
      rw [hf]
      exact List.mem_singleton_self x
    have hsub := (List.mem_filter.mp hx).2
    simp only [is_sub, decide_eq_true_eq] at hsub
    simp [deliver, hsub.1, hsub.2]

theorem filter_deliveries_one (registry : List log_callback) (cb : log_callback)
    (hone : registry.countP (is_sub cb.fn cb.priv) = 1)
    (queue : List store_log_forward) :
    (deliveries registry queue).filter (invoked_on cb.fn cb.priv) =
      queue.map (fun e => deliver e.file e.line e.function e.string cb) := by
  induction queue with
  | nil => simp [deliveries]
  | cons e rest ih =>
    have hsplit : deliveries registry (e :: rest) =
        registry.map (deliver e.file e.line e.function e.string) ++ deliveries registry rest := by
      simp [deliveries]
    rw [hsplit, List.filter_append, ih, filter_deliver_one registry cb hone]
    rfl

/-- C1. Start with the counter at 0 and the queue empty, with callbacks that
make no call into log.c, and perform `log_try` followed by calls of `log_try`,
`log_rethrow` and `log_forward` that stay inside properly nested regions of any
depth and end with the `log_rethrow` that closes the outermost region.  Let
`e1, ..., en` be the events published, in publish order.  Then
(1) after every proper initial part of the calls the run has returned and
`calls` is what it was at the start: no callback has been invoked;
(2) the whole run returns, and its last `log_rethrow` has appended to `calls`
the deliveries of `e1`, then of `e2`, ..., then of `en`, each to every
subscription in registry order; the counter is 0 and the queue is empty again,
and nothing else has changed;
(3) a registered subscription whose identity occurs once in the registry has
received exactly `e1, ..., en`, once each and in this order. -/
theorem deferred_events_replayed_in_order (E : Env) (hE : inert E) (s : State) (fuel : Nat)
    (body : List Op) (h0 : s.log_forward_count = 0) (hq : s.log_head = [])
    (hnd : (s.log_callbacks.map (fun cb => cb.addr)).Nodup)
    (hfuel : s.log_callbacks.length < fuel) (hn : nested 1 body = true) :
    (∀ pre suf, Op.log_try :: body = pre ++ suf → suf ≠ [] →
      ∃ sp, run E fuel pre s = .ok sp ∧ sp.calls = s.calls) ∧
    run E fuel (Op.log_try :: body) s =
      .ok { s with log_forward_count := 0, log_head := [],
                   calls := s.calls ++ deliveries s.log_callbacks (published body) } ∧
    (∀ cb ∈ s.log_callbacks, s.log_callbacks.countP (is_sub cb.fn cb.priv) = 1 →
      (deliveries s.log_callbacks (published body)).filter (invoked_on cb.fn cb.priv) =
        (published body).map (fun e => deliver e.file e.line e.function e.string cb)) := by
  have hd1 : (log_try s).log_forward_count = ((1 : Nat) : Int) := by
    simp [log_try, h0]
  obtain ⟨hrun, hpre⟩ := run_nested E hE fuel body 1 (log_try s) hd1 Nat.one_pos hnd hfuel hn
  refine ⟨?_, ?_, ?_⟩
  · intro pre suf hsplit hsuf
    cases pre with
    | nil => exact ⟨s, rfl, rfl⟩
    | cons p pre =>
      simp only [List.cons_append, List.cons.injEq] at hsplit
      obtain ⟨hp, hops⟩ := hsplit
      subst hp
      obtain ⟨sp, h1, h2, _⟩ := hpre pre suf hops hsuf
      exact ⟨sp, by rw [run]; exact h1, h2⟩
  · rw [run]
    simp only [run_op]
    rw [hrun]
    simp [log_try, hq]
  · intro cb _ hone
    exact filter_deliveries_one s.log_callbacks cb hone (published body)

/-- C1 on the run of the spec: regions at depths 1, 2 and 3, one event
published at each depth, then the three matching `log_rethrow` calls; two
subscriptions are registered. -/
theorem deferred_events_replayed_in_order_witness :
    run quiet 3
        [Op.log_try, Op.log_forward "a.c" 1 "f" "one\n", Op.log_try,
          Op.log_forward "b.c" 2 "g" "two\n", Op.log_try, Op.log_forward "c.c" 3 "h" "three\n",
          Op.log_rethrow, Op.log_rethrow, Op.log_rethrow]
        { log_callbacks := [⟨1, 8, 80⟩, ⟨0, 7, 70⟩], mallocs := 2 } =
      .ok { log_callbacks := [⟨1, 8, 80⟩, ⟨0, 7, 70⟩], mallocs := 2,
            calls := [⟨8, 80, "a.c", 1, "f", "one\n"⟩, ⟨7, 70, "a.c", 1, "f", "one\n"⟩,
                      ⟨8, 80, "b.c", 2, "g", "two\n"⟩, ⟨7, 70, "b.c", 2, "g", "two\n"⟩,
                      ⟨8, 80, "c.c", 3, "h", "three\n"⟩, ⟨7, 70, "c.c", 3, "h", "three\n"⟩] } :=
  (deferred_events_replayed_in_order quiet (fun _ _ _ _ _ _ => rfl)
    { log_callbacks := [⟨1, 8, 80⟩, ⟨0, 7, 70⟩], mallocs := 2 } 3
    [Op.log_forward "a.c" 1 "f" "one\n", Op.log_try,
      Op.log_forward "b.c" 2 "g" "two\n", Op.log_try, Op.log_forward "c.c" 3 "h" "three\n",
      Op.log_rethrow, Op.log_rethrow, Op.log_rethrow]
    rfl rfl (by decide) (by decide) (by decide)).2.1

/-! ## C4: a callback that unregisters itself -/

theorem nodup_mid_not_mem {α β : Type} (f : α → β) (pre : List α) (c : α) (rest : List α)
    (h : ((pre ++ c :: rest).map f).Nodup) : ∀ x ∈ pre, f x ≠ f c := by
  intro x hx heq
  rw [List.map_append, List.map_cons] at h
  have hdis := (List.nodup_append.mp h).2.2
  exact hdis (List.mem_map_of_mem f hx) (by rw [heq]; exact List.mem_cons_self _ _)

theorem nodup_mid_drop {α β : Type} (f : α → β) (pre : List α) (c : α) (rest : List α)
    (h : ((pre ++ c :: rest).map f).Nodup) : ((pre ++ rest).map f).Nodup := by
  rw [List.map_append, List.map_cons] at h
  rw [List.map_append]
  exact List.Nodup.sublist
    (List.Sublist.append (List.Sublist.refl _) (List.sublist_cons_self _ _)) h

theorem forward_loop_self_removal (E : Env) (hE : only_self_removal E) (file : String)
    (line : Nat) (function string : String) (rest : List log_callback) :
    ∀ (pre : List log_callback) (s : State) (fuel : Nat),
      s.log_callbacks = pre ++ rest →
      ((pre ++ rest).map (fun cb => cb.addr)).Nodup →
      ((pre ++ rest).map identity).Nodup →
      rest.length ≤ fuel →
      forward_loop E fuel (rest.head?.map (fun n => n.addr)) s file line function string =
        .ok { s with calls := s.calls ++ rest.map (deliver file line function string),
                     log_callbacks := pre ++ rest.filter (stays E file line function string) } := by
  induction rest with
  | nil =>
    intro pre s fuel hs _ _ _
    simp [forward_loop, ← hs]
  | cons c rest ih =>
    intro pre s fuel hs hnd hid hfuel
    cases fuel with
    | zero => simp at hfuel
    | succ f =>
      have hd : deref c.addr s.log_callbacks = some (c, rest.head?.map (fun n => n.addr)) := by
        rw [hs]
        exact deref_mid pre c rest hnd
      simp only [List.head?_cons, Option.map_some']
      rw [forward_loop, hd]
      simp only
      rcases hE c.fn c.priv file line function string with hstay | hleave
      · rw [hstay]
        simp only [List.foldlM_nil, pure, Except.pure]
        rw [ih (pre ++ [c])
          ({ s with calls := s.calls ++ [⟨c.fn, c.priv, file, line, function, string⟩] } : State) f
          (by simp [hs]) (by simpa using hnd) (by simpa using hid) (by simpa using hfuel)]
        have hk : stays E file line function string c = true := by simp [stays, hstay]
        simp [deliver, List.filter_cons, hk]
      · rw [hleave]
        have hpre : ∀ cb ∈ pre, ¬ (cb.fn = c.fn ∧ cb.priv = c.priv) := by
          intro cb hcb hm
          apply nodup_mid_not_mem identity pre c rest hid cb hcb
          simp [identity, hm.1, hm.2]
        have hun : unlink c.fn c.priv s.log_callbacks = some (pre ++ rest) := by
          rw [hs]
          exact unlink_split c.fn c.priv pre c rest hpre ⟨rfl, rfl⟩
        simp only [List.foldlM_cons, List.foldlM_nil, callback_action, log_remove_callback, hun,
          bind, Except.bind, pure, Except.pure]
        rw [ih pre _ f rfl (nodup_mid_drop _ pre c rest hnd) (nodup_mid_drop _ pre c rest hid)
          (by simpa using hfuel)]
        have hk : stays E file line function string c = false := by simp [stays, hleave]
        simp [deliver, List.filter_cons, hk]

theorem leaver_only_self_removal : only_self_removal leaver := by
  intro fn priv file line function string
  by_cases h : fn = 8
  · right; simp [leaver, h]
  · left; simp [leaver, h]

/-- C4. Let every callback either make no call into log.c or unregister its own
`(fn, priv)` while it is invoked, in a registry with pairwise distinct
identities.  With the counter at 0, `log_forward` returns (with more fuel than
there are subscriptions), and it has invoked every subscription of the
registry once with the event, in list order, those after a self-removing
callback included: `calls` grows exactly as it does in the same state when the
callbacks make no call at all.  Afterwards the registry holds, in their old
order, exactly the subscriptions whose callback did not unregister itself; the
others are gone.  Nothing else has changed. -/
theorem self_removal_is_safe (E : Env) (hE : only_self_removal E) (s : State) (fuel : Nat)
    (file : String) (line : Nat) (function string : String)
    (h0 : s.log_forward_count = 0)
    (hnd : (s.log_callbacks.map (fun cb => cb.addr)).Nodup)
    (hid : (s.log_callbacks.map identity).Nodup)
    (hfuel : s.log_callbacks.length < fuel) :
    log_forward E fuel s file line function string =
      .ok { s with calls := s.calls ++ s.log_callbacks.map (deliver file line function string),
                   log_callbacks := s.log_callbacks.filter (stays E file line function string) } ∧
    (∀ E0, inert E0 →
      log_forward E0 fuel s file line function string =
        .ok { s with calls := s.calls ++
                s.log_callbacks.map (deliver file line function string) }) := by
  refine ⟨?_, fun E0 hE0 =>
    log_forward_inert E0 hE0 s fuel file line function string h0 hnd hfuel⟩
  cases fuel with
  | zero => simp at hfuel
  | succ f =>
    rw [log_forward, if_pos h0]
    have h := forward_loop_self_removal E hE file line function string s.log_callbacks [] s f rfl
      (by simpa using hnd) (by simpa using hid) (by omega)
    exact h

/-- C4 on a registry of three whose middle callback unregisters itself. -/
theorem self_removal_is_safe_witness :
    log_forward leaver 4 { log_callbacks := [⟨2, 9, 90⟩, ⟨1, 8, 80⟩, ⟨0, 7, 70⟩], mallocs := 3 }
        "jtag.c" 12 "scan" "done\n" =
      .ok { log_callbacks := [⟨2, 9, 90⟩, ⟨0, 7, 70⟩], mallocs := 3,
            calls := [⟨9, 90, "jtag.c", 12, "scan", "done\n"⟩, ⟨8, 80, "jtag.c", 12, "scan", "done\n"⟩,
                      ⟨7, 70, "jtag.c", 12, "scan", "done\n"⟩] } :=
  (self_removal_is_safe leaver leaver_only_self_removal
    { log_callbacks := [⟨2, 9, 90⟩, ⟨1, 8, 80⟩, ⟨0, 7, 70⟩], mallocs := 3 } 4
    "jtag.c" 12 "scan" "done\n" rfl (by decide) (by decide) (by decide)).1

/-! ## C5: the keep-alive timer -/

theorem log_puts_sink_total (s : State) (level : Int) (file : String) (line : Nat)
    (function string : String) (lvl : String) (h : log_strings_at level = some lvl) :
    ∃ out, log_puts_sink s level file line function string =
      .ok { s with log_output := s.log_output ++ out } := by
  unfold log_puts_sink
  split
  · split
    · simp only [h]
      exact ⟨_, rfl⟩
    · split
      · split
        · split
          · simp only [h]
            exact ⟨_, rfl⟩
          · exact ⟨_, rfl⟩
        · exact ⟨[], by simp⟩
      · exact ⟨[], by simp⟩
  · exact ⟨[], by simp⟩

theorem log_puts_inert (E : Env) (hE : inert E) (s : State) (fuel : Nat) (level : Int)
    (file : String) (line : Nat) (function string lvl : String)
    (hlvl : log_strings_at level = some lvl)
    (hnd : (s.log_callbacks.map (fun cb => cb.addr)).Nodup)
    (hfuel : s.log_callbacks.length + 1 < fuel) :
    ∃ s1, log_puts E fuel s level file line function string = .ok s1 ∧ emits s s1 [] := by
  have hne : level ≠ LOG_LVL_OUTPUT := by
    intro h
    rw [h] at hlvl
    simp [log_strings_at, LOG_LVL_OUTPUT] at hlvl
  obtain ⟨out, hsink⟩ := log_puts_sink_total s level (strip_dirs file) line function string lvl hlvl
  cases fuel with
  | zero => omega
  | succ f =>
    rw [log_puts, if_neg hne]
    simp only [hsink]
    split
    · by_cases h0 : s.log_forward_count = 0
      · rw [log_forward_inert E hE ({ s with log_output := s.log_output ++ out } : State) f _ _ _ _
          h0 hnd (by simpa using Nat.lt_of_succ_lt_succ hfuel)]
        exact ⟨_, rfl, ⟨rfl, rfl, rfl, rfl, rfl, rfl, rfl, rfl, fun _ => rfl⟩, rfl, by simp⟩
      · have hfw : ∀ t : State, t.log_forward_count = s.log_forward_count →
            log_forward E f t (strip_dirs file) line function string =
              .ok { t with log_head := t.log_head ++ [⟨strip_dirs file, line, function, string⟩] } := by
          intro t ht
          have : t.log_forward_count ≠ 0 := by rw [ht]; exact h0
          cases f <;> rw [log_forward, if_neg this]
        rw [hfw ({ s with log_output := s.log_output ++ out } : State) rfl]
        exact ⟨_, rfl, ⟨rfl, rfl, rfl, rfl, rfl, rfl, rfl, rfl, fun h => absurd h h0⟩, rfl, by simp⟩
    · exact ⟨_, rfl, ⟨rfl, rfl, rfl, rfl, rfl, rfl, rfl, rfl, fun _ => rfl⟩, rfl, by simp⟩

theorem emits_trans {a b c : State} {xs ys : List Emitted} (h1 : emits a b xs)
    (h2 : emits b c ys) : emits a c (xs ++ ys) := by
  refine ⟨frame_trans h1.1 h2.1, h2.2.1.trans h1.2.1, ?_⟩
  rw [h2.2.2, h1.2.2, List.append_assoc]

theorem log_printf_inert (E : Env) (hE : inert E) (s : State) (fuel : Nat) (level : Int)
    (file : String) (line : Nat) (function format : String) (args : List Arg) (lvl : String)
    (hlvl : log_strings_at level = some lvl)
    (hnd : (s.log_callbacks.map (fun cb => cb.addr)).Nodup)
    (hfuel : s.log_callbacks.length + 2 < fuel) :
    ∃ s1, log_printf E fuel s level file line function format args = .ok s1 ∧
      emits s s1 [⟨level, file, line, function, format, args, false⟩] := by
  cases fuel with
  | zero => omega
  | succ f =>
    rw [log_printf]
    simp only
    split
    · exact ⟨_, rfl, ⟨rfl, rfl, rfl, rfl, rfl, rfl, rfl, rfl, fun _ => rfl⟩, rfl, rfl⟩
    · simp only [alloc_vprintf]
      split
      · rename_i hal
        split at hal
        · cases hal
        · cases hal
          exact ⟨_, rfl, ⟨rfl, rfl, rfl, rfl, rfl, rfl, rfl, rfl, fun _ => rfl⟩, rfl, rfl⟩
      · rename_i str s2 hal
        split at hal
        · cases hal
          obtain ⟨s3, h3, he⟩ := log_puts_inert E hE
            ({ s with count := s.count + 1,
                      emitted := s.emitted ++ [⟨level, file, line, function, format, args, false⟩],
                      alloc_vprintf_calls := s.alloc_vprintf_calls + 1,
                      mallocs := s.mallocs + 1 } : State)
            f level file line function (String.mk (vsnprintf format.data args)) lvl hlvl hnd
            (by simpa using Nat.lt_of_succ_lt_succ hfuel)
          refine ⟨s3, h3, ?_⟩
          have h1 : emits s
              ({ s with count := s.count + 1,
                        emitted := s.emitted ++ [⟨level, file, line, function, format, args, false⟩],
                        alloc_vprintf_calls := s.alloc_vprintf_calls + 1,
                        mallocs := s.mallocs + 1 } : State)
              [⟨level, file, line, function, format, args, false⟩] :=
            ⟨⟨rfl, rfl, rfl, rfl, rfl, rfl, rfl, rfl, fun _ => rfl⟩, rfl, rfl⟩
          simpa using emits_trans h1 he
        · cases hal

theorem log_printf_lf_inert (E : Env) (hE : inert E) (s : State) (fuel : Nat) (level : Int)
    (file : String) (line : Nat) (function format : String) (args : List Arg) (lvl : String)
    (hlvl : log_strings_at level = some lvl)
    (hnd : (s.log_callbacks.map (fun cb => cb.addr)).Nodup)
    (hfuel : s.log_callbacks.length + 2 < fuel) :
    ∃ s1, log_printf_lf E fuel s level file line function format args = .ok s1 ∧
      emits s s1 [⟨level, file, line, function, format, args, true⟩] := by
  cases fuel with
  | zero => omega
  | succ f =>
    rw [log_printf_lf]
    simp only
    split
    · exact ⟨_, rfl, ⟨rfl, rfl, rfl, rfl, rfl, rfl, rfl, rfl, fun _ => rfl⟩, rfl, rfl⟩
    · simp only [alloc_vprintf]
      split
      · rename_i hal
        split at hal
        · cases hal
        · cases hal
          exact ⟨_, rfl, ⟨rfl, rfl, rfl, rfl, rfl, rfl, rfl, rfl, fun _ => rfl⟩, rfl, rfl⟩
      · rename_i str s2 hal
        split at hal
        · cases hal
          obtain ⟨s3, h3, he⟩ := log_puts_inert E hE
            ({ s with count := s.count + 1,
                      emitted := s.emitted ++ [⟨level, file, line, function, format, args, true⟩],
                      alloc_vprintf_calls := s.alloc_vprintf_calls + 1,
                      mallocs := s.mallocs + 1 } : State)
            f level file line function (String.mk (vsnprintf format.data args) ++ "\n") lvl hlvl hnd
            (by simpa using Nat.lt_of_succ_lt_succ hfuel)
          refine ⟨s3, h3, ?_⟩
          have h1 : emits s
              ({ s with count := s.count + 1,
                        emitted := s.emitted ++ [⟨level, file, line, function, format, args, true⟩],
                        alloc_vprintf_calls := s.alloc_vprintf_calls + 1,
                        mallocs := s.mallocs + 1 } : State)
              [⟨level, file, line, function, format, args, true⟩] :=
            ⟨⟨rfl, rfl, rfl, rfl, rfl, rfl, rfl, rfl, fun _ => rfl⟩, rfl, rfl⟩
          simpa using emits_trans h1 he
        · cases hal

/-- C5. With callbacks that make no call into log.c and enough fuel,
`keep_alive` returns, and for every `last_time` and every clock reading:
(1) if `clock - last_time > 500` it hands exactly one event of user level to the
logger, the liveness event `LOG_USER_N("%s", "")` whose text has length zero,
after the overdue diagnostic if there is one (which is not of user level), and
sets `last_time` to the clock reading;
(2) otherwise it hands no event to the logger and changes nothing but
`current_time`, so `last_time` stays;
(3) on the simulated clock, with `last_time` initially 0 and one subscription:
the call at t = 0 emits nothing, the call at t = 600 emits the liveness event,
delivers the empty string and sets `last_time` to 600, the call at t = 700
emits nothing and leaves `last_time` at 600. -/
theorem keep_alive_heartbeat (E : Env) (hE : inert E) (s : State) (fuel : Nat)
    (hnd : (s.log_callbacks.map (fun cb => cb.addr)).Nodup)
    (hfuel : s.log_callbacks.length + 2 < fuel) :
    (s.clock - s.last_time > 500 →
      ∃ s1 diag, keep_alive E fuel s = .ok s1 ∧ s1.last_time = s.clock ∧
        s1.emitted = s.emitted ++ diag ++ [liveness_event] ∧
        (∀ d ∈ diag, d.level ≠ LOG_LVL_USER) ∧ text_of liveness_event = "") ∧
    (¬ s.clock - s.last_time > 500 →
      keep_alive E fuel s = .ok { s with current_time := s.clock }) ∧
    (keep_alive_at quiet 4 0 { log_callbacks := [⟨0, 7, 70⟩], mallocs := 1 } =
        .ok { log_callbacks := [⟨0, 7, 70⟩], mallocs := 1 } ∧
      keep_alive_at quiet 4 600 { log_callbacks := [⟨0, 7, 70⟩], mallocs := 1 } =
        .ok { log_callbacks := [⟨0, 7, 70⟩], mallocs := 2, clock := 600, current_time := 600,
              last_time := 600, count := 1, alloc_vprintf_calls := 1,
              emitted := [liveness_event],
              calls := [⟨7, 70, "log.c", 496, "keep_alive", ""⟩] } ∧
      keep_alive_at quiet 4 700
          { log_callbacks := [⟨0, 7, 70⟩], mallocs := 2, clock := 600, current_time := 600,
            last_time := 600, count := 1, alloc_vprintf_calls := 1,
            emitted := [liveness_event],
            calls := [⟨7, 70, "log.c", 496, "keep_alive", ""⟩] } =
        .ok { log_callbacks := [⟨0, 7, 70⟩], mallocs := 2, clock := 700, current_time := 700,
              last_time := 600, count := 1, alloc_vprintf_calls := 1,
              emitted := [liveness_event],
              calls := [⟨7, 70, "log.c", 496, "keep_alive", ""⟩] }) := by
  refine ⟨?_, ?_, rfl, rfl, rfl⟩
  · intro hgt
    have hstep : ∃ s1 diag,
        (if ({ s with current_time := timeval_ms s } : State).current_time -
              ({ s with current_time := timeval_ms s } : State).last_time > 1000 then
            if ({ s with current_time := timeval_ms s } : State).gdb_actual_connections ≠ 0 then
              LOG_WARNING E fuel { s with current_time := timeval_ms s } FILE__ 482 "keep_alive"
                ("keep_alive() was not invoked in the 1000ms timelimit. GDB alive packet not " ++
                  "sent! (%lld). Workaround: increase \"set remotetimeout\" in GDB")
                [Arg.int (({ s with current_time := timeval_ms s } : State).current_time -
                  ({ s with current_time := timeval_ms s } : State).last_time)]
            else
              LOG_DEBUG E fuel { s with current_time := timeval_ms s } FILE__ 488 "keep_alive"
                ("keep_alive() was not invoked in the 1000ms timelimit (%lld). This may cause " ++
                  "trouble with GDB connections.")
                [Arg.int (({ s with current_time := timeval_ms s } : State).current_time -
                  ({ s with current_time := timeval_ms s } : State).last_time)]
          else .ok { s with current_time := timeval_ms s }) = .ok s1 ∧
        emits { s with current_time := timeval_ms s } s1 diag ∧
        ∀ d ∈ diag, d.level ≠ LOG_LVL_USER := by
      split
      · split
        · obtain ⟨s1, h1, he⟩ := log_printf_lf_inert E hE
            ({ s with current_time := timeval_ms s } : State) fuel LOG_LVL_WARNING FILE__ 482
            "keep_alive"
            ("keep_alive() was not invoked in the 1000ms timelimit. GDB alive packet not " ++
              "sent! (%lld). Workaround: increase \"set remotetimeout\" in GDB")
            [Arg.int (({ s with current_time := timeval_ms s } : State).current_time -
              ({ s with current_time := timeval_ms s } : State).last_time)]
            "Warn : " rfl hnd hfuel
          refine ⟨s1, _, h1, he, ?_⟩
          intro d hd
          rw [List.mem_singleton.mp hd]
          show LOG_LVL_WARNING ≠ LOG_LVL_USER
          decide
        · obtain ⟨s1, h1, he⟩ := log_printf_lf_inert E hE
            ({ s with current_time := timeval_ms s } : State) fuel LOG_LVL_DEBUG FILE__ 488
            "keep_alive"
            ("keep_alive() was not invoked in the 1000ms timelimit (%lld). This may cause " ++
              "trouble with GDB connections.")
            [Arg.int (({ s with current_time := timeval_ms s } : State).current_time -
              ({ s with current_time := timeval_ms s } : State).last_time)]
            "Debug: " rfl hnd hfuel
          refine ⟨s1, _, h1, he, ?_⟩
          intro d hd
          rw [List.mem_singleton.mp hd]
          show LOG_LVL_DEBUG ≠ LOG_LVL_USER
          decide
      · exact ⟨_, [], rfl, ⟨frame_refl _, rfl, by simp⟩, by simp⟩
    obtain ⟨s1, diag, hw, he, hdiag⟩ := hstep
    obtain ⟨hfr, hreg, hem⟩ := he
    obtain ⟨_, _, hlast, hcur, _, _, _, _, _⟩ := hfr
    have hnd1 : (s1.log_callbacks.map (fun cb => cb.addr)).Nodup := by rw [hreg]; exact hnd
    have hfuel1 : s1.log_callbacks.length + 2 < fuel := by rw [hreg]; exact hfuel
    obtain ⟨s2, h2, he2⟩ := log_printf_inert E hE s1 fuel LOG_LVL_USER FILE__ 496 "keep_alive"
      "%s" [Arg.str ""] "User : " rfl hnd1 hfuel1
    obtain ⟨hfr2, _, hem2⟩ := he2
    obtain ⟨_, _, _, hcur2, _, _, _, _, _⟩ := hfr2
    refine ⟨{ s2 with last_time := s2.current_time }, diag, ?_, ?_, ?_, hdiag, by decide⟩
    · unfold keep_alive
      simp only
      rw [hw]
      simp only
      have hgt1 : s1.current_time - s1.last_time > 500 := by
        rw [hcur, hlast]
        exact hgt
      rw [if_pos hgt1]
      unfold LOG_USER_N
      rw [h2]
    · simp only [hcur2, hcur]
      rfl
    · simp only [hem2, hem]
      rfl
  · intro hle
    unfold keep_alive
    simp only [timeval_ms]
    have h1 : ¬ s.clock - s.last_time > 1000 := by omega
    rw [if_neg h1]
    simp only
    rw [if_neg hle]

/-- C5 at the call of t = 600 after `last_time` = 0. -/
theorem keep_alive_heartbeat_witness :
    ∃ s1 diag,
      keep_alive quiet 4 { log_callbacks := [⟨0, 7, 70⟩], mallocs := 1, clock := 600 } = .ok s1 ∧
      s1.last_time = 600 ∧ s1.emitted = [] ++ diag ++ [liveness_event] ∧
      (∀ d ∈ diag, d.level ≠ LOG_LVL_USER) ∧ text_of liveness_event = "" :=
  (keep_alive_heartbeat quiet (fun _ _ _ _ _ _ => rfl)
    { log_callbacks := [⟨0, 7, 70⟩], mallocs := 1, clock := 600 } 4 (by decide) (by decide)).1
    (by decide)

/-! ## C7: leaving a region that was not entered -/

theorem replay_frame (E : Env) (fuel : Nat) (queue : List store_log_forward) :
    ∀ (s s1 : State), replay E fuel queue s = .ok s1 → frame s s1 := by
  induction queue with
  | nil =>
    intro s s1 h
    rw [replay] at h
    cases h
    exact frame_refl _
  | cons e rest ih =>
    intro s s1 h
    rw [replay] at h
    split at h
    · cases h
    · rename_i s2 h2
      exact frame_trans ((frame_all E fuel).1 _ _ _ _ _ _ h2) (ih s2 s1 h)

theorem log_rethrow_counter (E : Env) (fuel : Nat) (s s1 : State)
    (h : log_rethrow E fuel s = .ok s1) :
    0 < s.log_forward_count ∧ s1.log_forward_count = s.log_forward_count - 1 := by
  unfold log_rethrow log_catch at h
  by_cases hpos : s.log_forward_count > 0
  · rw [if_pos hpos] at h
    simp only at h
    split at h
    · split at h
      · cases h
      · rename_i s2 h2
        cases h
        exact ⟨hpos, (replay_frame E fuel _ _ _ h2).1⟩
    · cases h
      exact ⟨hpos, rfl⟩
  · rw [if_neg hpos] at h
    cases h

theorem run_op_counter_nonneg (E : Env) (fuel : Nat) (op : Op) (s s1 : State)
    (h0 : 0 ≤ s.log_forward_count) (h : run_op E fuel s op = .ok s1) :
    0 ≤ s1.log_forward_count := by
  cases op with
  | log_try =>
    simp only [run_op, log_try, Except.ok.injEq] at h
    subst h
    simp only
    omega
  | log_catch =>
    simp only [run_op, log_catch] at h
    split at h
    · cases h
      simp only
      omega
    · cases h
  | log_rethrow =>
    obtain ⟨h1, h2⟩ := log_rethrow_counter E fuel s s1 h
    omega
  | log_forward file line function string =>
    have := ((frame_all E fuel).1 _ _ _ _ _ _ h).1
    omega

theorem run_counter_nonneg (E : Env) (fuel : Nat) (ops : List Op) :
    ∀ (s s1 : State), 0 ≤ s.log_forward_count → run E fuel ops s = .ok s1 →
      0 ≤ s1.log_forward_count := by
  induction ops with
  | nil =>
    intro s s1 h0 h
    rw [run] at h
    cases h
    exact h0
  | cons op ops ih =>
    intro s s1 h0 h
    rw [run] at h
    split at h
    · cases h
    · rename_i s2 h2
      exact ih s2 s1 (run_op_counter_nonneg E fuel op s s2 h0 h2) h

/-- C7. The exit operation at counter 0 is a contract violation: `log_catch`
stops at its `assert` (the fault `assertion_failed`) and so does `log_rethrow`,
which calls it first; neither returns a state, so the call is not ignored and
no state with the counter negative or wrapped around comes out of it.  When
the counter is greater than 0, `log_catch` returns with the counter one lower
and nothing else changed; `log_rethrow` returns with the counter one lower and
nothing else changed when the counter stays above 0, and when it reaches 0 it
returns with it at 0 after the replay (here with callbacks that make no call
into log.c); whatever the callbacks do, a `log_rethrow` that returns has
lowered the counter by exactly one.  `log_try` raises the counter by exactly
one and changes nothing else.  From a counter that is not negative, no
sequence of `log_try`, `log_catch`, `log_rethrow` and `log_forward` calls
reaches a state in which it is negative. -/
theorem exit_at_zero_is_violation (E : Env) (fuel : Nat) (s : State) :
    (s.log_forward_count = 0 →
      log_catch s = .error .assertion_failed ∧
      log_rethrow E fuel s = .error .assertion_failed) ∧
    (0 < s.log_forward_count →
      log_catch s = .ok { s with log_forward_count := s.log_forward_count - 1 }) ∧
    (1 < s.log_forward_count →
      log_rethrow E fuel s = .ok { s with log_forward_count := s.log_forward_count - 1 }) ∧
    (s.log_forward_count = 1 → inert E →
      (s.log_callbacks.map (fun cb => cb.addr)).Nodup → s.log_callbacks.length < fuel →
      log_rethrow E fuel s =
        .ok { s with log_forward_count := 0, log_head := [],
                     calls := s.calls ++ deliveries s.log_callbacks s.log_head }) ∧
    (∀ s1, log_rethrow E fuel s = .ok s1 →
      0 < s.log_forward_count ∧ s1.log_forward_count = s.log_forward_count - 1) ∧
    log_try s = { s with log_forward_count := s.log_forward_count + 1 } ∧
    (0 ≤ s.log_forward_count →
      ∀ ops s1, run E fuel ops s = .ok s1 → 0 ≤ s1.log_forward_count) := by
  have hcatch : 0 < s.log_forward_count →
      log_catch s = .ok { s with log_forward_count := s.log_forward_count - 1 } := by
    intro hpos
    unfold log_catch
    rw [if_pos hpos]
  refine ⟨?_, hcatch, ?_, ?_, log_rethrow_counter E fuel s, rfl, ?_⟩
  · intro h0
    have hc : log_catch s = .error .assertion_failed := by
      unfold log_catch
      rw [if_neg (by omega)]
    refine ⟨hc, ?_⟩
    unfold log_rethrow
    rw [hc]
  · intro h1
    unfold log_rethrow
    rw [hcatch (by omega)]
    simp only
    rw [if_neg (by omega)]
  · intro h1 hE hnd hfuel
    unfold log_rethrow
    rw [hcatch (by omega)]
    simp only
    have hz : s.log_forward_count - 1 = 0 := by omega
    rw [if_pos hz, replay_inert E hE fuel s.log_head
      ({ s with log_forward_count := s.log_forward_count - 1 } : State) hz hnd hfuel]
    simp [hz]
  · intro h0 ops s1 h
    exact run_counter_nonneg E fuel ops s s1 h0 h

/-- C7 at counter 0 and at counter 1 with one queued event. -/
theorem exit_at_zero_is_violation_witness :
    log_catch {} = .error .assertion_failed ∧
    log_rethrow quiet 2 {} = .error .assertion_failed ∧
    log_catch { log_forward_count := 1 } = .ok { log_forward_count := 0 } ∧
    log_rethrow quiet 2
        { log_forward_count := 1, log_callbacks := [⟨0, 7, 70⟩], mallocs := 1,
          log_head := [⟨"a.c", 1, "f", "one\n"⟩] } =
      .ok { log_callbacks := [⟨0, 7, 70⟩], mallocs := 1,
            calls := [⟨7, 70, "a.c", 1, "f", "one\n"⟩] } :=
  ⟨((exit_at_zero_is_violation quiet 2 {}).1 rfl).1,
   ((exit_at_zero_is_violation quiet 2 {}).1 rfl).2,
   (exit_at_zero_is_violation quiet 2 { log_forward_count := 1 }).2.1 (by decide),
   (exit_at_zero_is_violation quiet 2
      { log_forward_count := 1, log_callbacks := [⟨0, 7, 70⟩], mallocs := 1,
        log_head := [⟨"a.c", 1, "f", "one\n"⟩] }).2.2.2.1 rfl (fun _ _ _ _ _ _ => rfl)
      (by decide) (by decide)⟩

/-! ## C8: publishing from a callback during the replay -/

theorem forward_loop_skip (E : Env) (file : String) (line : Nat) (function string : String)
    (mid : List log_callback) :
    ∀ (pre post : List log_callback) (s : State) (k : Nat),
      s.log_callbacks = pre ++ mid ++ post →
      ((pre ++ mid ++ post).map (fun cb => cb.addr)).Nodup →
      (∀ cb ∈ mid, E.code cb.fn cb.priv file line function string = []) →
      forward_loop E (mid.length + k) ((mid ++ post).head?.map (fun n => n.addr)) s
          file line function string =
        forward_loop E k (post.head?.map (fun n => n.addr))
          { s with calls := s.calls ++ mid.map (deliver file line function string) }
          file line function string := by
  induction mid with
  | nil =>
    intro pre post s k _ _ _
    simp
  | cons c mid ih =>
    intro pre post s k hs hnd hq
    have hd : deref c.addr s.log_callbacks =
        some (c, (mid ++ post).head?.map (fun n => n.addr)) := by
      rw [hs, List.append_assoc, List.cons_append]
      exact deref_mid pre c (mid ++ post) (by simpa using hnd)
    have hlen : (c :: mid).length + k = (mid.length + k) + 1 := by
      simp only [List.length_cons]
      omega
    simp only [List.cons_append, List.head?_cons, Option.map_some']
    rw [hlen, forward_loop, hd]
    simp only [hq c (List.mem_cons_self _ _), List.foldlM_nil, pure, Except.pure]
    rw [ih (pre ++ [c]) post
      ({ s with calls := s.calls ++ [⟨c.fn, c.priv, file, line, function, string⟩] } : State) k
      (by simp [hs]) (by simpa using hnd) (fun cb hcb => hq cb (List.mem_cons_of_mem _ hcb))]
    simp [deliver]

theorem log_forward_silent (E : Env) (s : State) (fuel : Nat) (file : String)
    (line : Nat) (function string : String)
    (hq : ∀ cb ∈ s.log_callbacks, E.code cb.fn cb.priv file line function string = [])
    (h0 : s.log_forward_count = 0)
    (hnd : (s.log_callbacks.map (fun cb => cb.addr)).Nodup)
    (hfuel : s.log_callbacks.length < fuel) :
    log_forward E fuel s file line function string =
      .ok { s with calls := s.calls ++ s.log_callbacks.map (deliver file line function string) } := by
  obtain ⟨k, hk⟩ : ∃ k, fuel = (s.log_callbacks.length + k) + 1 := ⟨fuel - s.log_callbacks.length - 1, by omega⟩
  rw [hk, log_forward, if_pos h0]
  have h := forward_loop_skip E file line function string s.log_callbacks [] [] s k (by simp)
    (by simpa using hnd) hq
  simp only [List.append_nil] at h
  rw [h]
  simp [forward_loop]

theorem log_puts_delivers (E : Env) (s : State) (fuel : Nat) (level : Int)
    (file : String) (line : Nat) (function string lvl : String)
    (hq : ∀ cb ∈ s.log_callbacks,
      E.code cb.fn cb.priv (strip_dirs file) line function string = [])
    (hlvl : log_strings_at level = some lvl) (hinfo : level ≤ LOG_LVL_INFO)
    (h0 : s.log_forward_count = 0)
    (hnd : (s.log_callbacks.map (fun cb => cb.addr)).Nodup)
    (hfuel : s.log_callbacks.length + 1 < fuel) :
    ∃ s1, log_puts E fuel s level file line function string = .ok s1 ∧
      frame s s1 ∧ s1.log_callbacks = s.log_callbacks ∧
      s1.calls = s.calls ++
        s.log_callbacks.map (deliver (strip_dirs file) line function string) := by
  have hne : level ≠ LOG_LVL_OUTPUT := by
    intro h
    rw [h] at hlvl
    simp [log_strings_at, LOG_LVL_OUTPUT] at hlvl
  obtain ⟨f, hf⟩ : ∃ f, fuel = f + 1 := ⟨fuel - 1, by omega⟩
  subst hf
  rw [log_puts, if_neg hne]
  simp only
  obtain ⟨out, hsink⟩ := log_puts_sink_total s level (strip_dirs file) line function string lvl hlvl
  rw [hsink]
  simp only
  rw [if_pos hinfo]
  rw [log_forward_silent E ({ s with log_output := s.log_output ++ out } : State) f _ _ _ _
    hq h0 hnd (Nat.lt_of_add_lt_add_right hfuel)]
  exact ⟨_, rfl, ⟨rfl, rfl, rfl, rfl, rfl, rfl, rfl, rfl, fun _ => rfl⟩, rfl, rfl⟩

theorem logger_call_delivers (E : Env) (s : State) (f : Nat) (lf : Bool) (level : Int)
    (file : String) (line : Nat) (function format : String) (args : List Arg) (lvl : String)
    (hq : ∀ cb ∈ s.log_callbacks, E.code cb.fn cb.priv (strip_dirs file) line function
      (printed_string lf format args) = [])
    (hlvl : log_strings_at level = some lvl) (hinfo : level ≤ LOG_LVL_INFO)
    (hpass : ¬ level > s.debug_level) (hm : E.malloc_ok s.mallocs = true)
    (h0 : s.log_forward_count = 0)
    (hnd : (s.log_callbacks.map (fun cb => cb.addr)).Nodup)
    (hfuel : s.log_callbacks.length + 1 < f) :
    ∃ s1, callback_action E (f + 2) (logger_call lf level file line function format args) s =
        .ok s1 ∧
      frame s s1 ∧ s1.log_callbacks = s.log_callbacks ∧
      s1.calls = s.calls ++ s.log_callbacks.map
        (deliver (strip_dirs file) line function (printed_string lf format args)) := by
  cases lf with
  | false =>
    obtain ⟨s1, hp, hfr, hreg, hcalls⟩ := log_puts_delivers E
      ({ s with count := s.count + 1,
                emitted := s.emitted ++ [⟨level, file, line, function, format, args, false⟩],
                alloc_vprintf_calls := s.alloc_vprintf_calls + 1,
                mallocs := s.mallocs + 1 } : State)
      f level file line function (String.mk (vsnprintf format.data args)) lvl hq hlvl hinfo h0
      hnd hfuel
    refine ⟨s1, ?_, frame_trans ⟨rfl, rfl, rfl, rfl, rfl, rfl, rfl, rfl, fun _ => rfl⟩ hfr,
      hreg, hcalls⟩
    rw [logger_call, callback_action, log_printf]
    simp only
    rw [if_neg hpass]
    simp only [alloc_vprintf, hm, if_true]
    exact hp
  | true =>
    obtain ⟨s1, hp, hfr, hreg, hcalls⟩ := log_puts_delivers E
      ({ s with count := s.count + 1,
                emitted := s.emitted ++ [⟨level, file, line, function, format, args, true⟩],
                alloc_vprintf_calls := s.alloc_vprintf_calls + 1,
                mallocs := s.mallocs + 1 } : State)
      f level file line function (String.mk (vsnprintf format.data args) ++ "\n") lvl hq hlvl
      hinfo h0 hnd hfuel
    refine ⟨s1, ?_, frame_trans ⟨rfl, rfl, rfl, rfl, rfl, rfl, rfl, rfl, fun _ => rfl⟩ hfr,
      hreg, hcalls⟩
    rw [logger_call, callback_action, log_printf_lf]
    simp only
    rw [if_neg hpass]
    simp only [alloc_vprintf, hm, if_true]
    exact hp

theorem log_strings_at_forwardable (level : Int) (h1 : LOG_LVL_USER ≤ level)
    (h2 : level ≤ LOG_LVL_INFO) : ∃ lvl, log_strings_at level = some lvl := by
  simp only [LOG_LVL_USER, LOG_LVL_INFO] at h1 h2
  have h : level = -1 ∨ level = 0 ∨ level = 1 ∨ level = 2 := by omega
  rcases h with h | h | h | h <;> subst h <;> exact ⟨_, rfl⟩

theorem forward_loop_step_single (E : Env) (u u1 : State) (c : log_callback)
    (nxt : Option Nat) (f : Nat) (file : String) (line : Nat) (function string : String)
    (act : Action)
    (hd : deref c.addr u.log_callbacks = some (c, nxt))
    (hc : E.code c.fn c.priv file line function string = [act])
    (hp : callback_action E f act
      { u with calls := u.calls ++ [⟨c.fn, c.priv, file, line, function, string⟩] } = .ok u1) :
    forward_loop E (f + 1) (some c.addr) u file line function string =
      forward_loop E f nxt u1 file line function string := by
  rw [forward_loop, hd]
  simp only
  rw [hc]
  have hfold : List.foldlM (fun st act => callback_action E f act st)
      ({ u with calls := u.calls ++ [⟨c.fn, c.priv, file, line, function, string⟩] } : State)
      [act] = .ok u1 := by
    rw [List.foldlM_cons, hp]
    rfl
  rw [hfold]

theorem dispatch_publishing (E : Env) (pre : List log_callback) (c : log_callback)
    (post : List log_callback) (q : store_log_forward) (lf : Bool) (level : Int)
    (xfile : String) (xline : Nat) (xfunction xformat : String) (xargs : List Arg)
    (hE : publishes_on E c.fn c.priv q
      (logger_call lf level xfile xline xfunction xformat xargs))
    (hx : printed lf xfile xline xfunction xformat xargs ≠ q)
    (h1 : LOG_LVL_USER ≤ level) (h2 : level ≤ LOG_LVL_INFO)
    (t : State) (fuel : Nat)
    (hreg : t.log_callbacks = pre ++ c :: post)
    (hnd : (t.log_callbacks.map (fun cb => cb.addr)).Nodup)
    (hid : (t.log_callbacks.map identity).Nodup)
    (h0 : t.log_forward_count = 0) (hpass : level ≤ t.debug_level)
    (hm : E.malloc_ok t.mallocs = true)
    (hfuel : 2 * t.log_callbacks.length + 5 < fuel) :
    ∃ t1, log_forward E fuel t q.file q.line q.function q.string = .ok t1 ∧
      frame t t1 ∧ t1.log_callbacks = t.log_callbacks ∧
      t1.calls = t.calls ++
        replay_trace pre c post q (printed lf xfile xline xfunction xformat xargs) q := by
  have hlen : t.log_callbacks.length = pre.length + (post.length + 1) := by
    rw [hreg]
    simp
  have hnd1 : ((pre ++ c :: post).map (fun cb => cb.addr)).Nodup := hreg ▸ hnd
  have hid1 : ((pre ++ c :: post).map identity).Nodup := hreg ▸ hid
  -- the callbacks in front of `c` and behind it make no call on `q`
  have hpre : ∀ cb ∈ pre, E.code cb.fn cb.priv q.file q.line q.function q.string = [] := by
    intro cb hcb
    rw [hE, if_neg]
    intro hm
    exact nodup_mid_not_mem identity pre c post hid1 cb hcb (by simp [identity, hm.1, hm.2.1])
  have hpost : ∀ cb ∈ post, E.code cb.fn cb.priv q.file q.line q.function q.string = [] := by
    intro cb hcb
    rw [hE, if_neg]
    intro hm
    have hsw : ((pre ++ c :: post).map identity).Nodup := hid1
    rw [List.map_append, List.map_cons] at hsw
    have hc := (List.nodup_cons.mp (List.nodup_append.mp hsw).2.1).1
    apply hc
    have : identity cb = identity c := by simp [identity, hm.1, hm.2.1]
    rw [← this]
    exact List.mem_map_of_mem identity hcb
  -- no callback makes a call on `x`
  have hxq : ∀ fn priv, E.code fn priv (strip_dirs xfile) xline xfunction
      (printed_string lf xformat xargs) = [] := by
    intro fn priv
    rw [hE, if_neg]
    intro hm
    exact hx hm.2.2
  have hcq : E.code c.fn c.priv q.file q.line q.function q.string =
      [logger_call lf level xfile xline xfunction xformat xargs] := by
    rw [hE, if_pos ⟨rfl, rfl, rfl⟩]
  obtain ⟨k, hk⟩ : ∃ k, fuel = (pre.length + ((post.length + (k + 1)) + 1)) + 1 :=
    ⟨fuel - pre.length - post.length - 3, by omega⟩
  have hkbig : t.log_callbacks.length + 1 < post.length + k - 1 := by omega
  obtain ⟨k1, hk1⟩ : ∃ k1, post.length + k = k1 + 1 := ⟨post.length + k - 1, by omega⟩
  rw [hk, log_forward, if_pos h0, hreg]
  -- up to `c`
  have hA := forward_loop_skip E q.file q.line q.function q.string pre [] (c :: post) t
    ((post.length + (k + 1)) + 1) (by simp [hreg]) (by simpa using hnd1) hpre
  rw [hA]
  -- the invocation of `c`
  have hd : deref c.addr t.log_callbacks = some (c, post.head?.map (fun n => n.addr)) := by
    rw [hreg]
    exact deref_mid pre c post hnd1
  simp only [List.head?_cons, Option.map_some']
  obtain ⟨lvl, hlvl⟩ := log_strings_at_forwardable level h1 h2
  obtain ⟨t1, hp, hfr, hreg1, hcalls1⟩ := logger_call_delivers E
    ({ t with calls := t.calls ++ pre.map (deliver q.file q.line q.function q.string) ++
        [⟨c.fn, c.priv, q.file, q.line, q.function, q.string⟩] } : State)
    k1 lf level xfile xline xfunction xformat xargs lvl
    (fun cb _ => hxq cb.fn cb.priv) hlvl h2 (by simpa using hpass) hm h0 hnd
    (by show t.log_callbacks.length + 1 < k1; omega)
  have hfu : post.length + (k + 1) + 1 = (k1 + 2) + 1 := by omega
  have hC := forward_loop_step_single E
    ({ t with calls := t.calls ++ pre.map (deliver q.file q.line q.function q.string) } : State)
    t1 c (post.head?.map (fun n => n.addr)) (k1 + 2) q.file q.line q.function q.string
    (logger_call lf level xfile xline xfunction xformat xargs) hd hcq hp
  rw [hfu, hC]
  -- behind `c`
  have hB := forward_loop_skip E q.file q.line q.function q.string post (pre ++ [c]) [] t1
    (k + 1) (by simp [hreg1, hreg]) (by simpa using hnd1) hpost
  simp only [List.append_nil] at hB
  have hfu2 : k1 + 2 = post.length + (k + 1) := by omega
  rw [hfu2, hB]
  refine ⟨{ t1 with calls := t1.calls ++ post.map (deliver q.file q.line q.function q.string) },
    by simp [forward_loop], ?_, ?_, ?_⟩
  · exact frame_trans ⟨rfl, rfl, rfl, rfl, rfl, rfl, rfl, rfl, fun _ => rfl⟩
      (frame_trans hfr ⟨rfl, rfl, rfl, rfl, rfl, rfl, rfl, rfl, fun _ => rfl⟩)
  · exact hreg1.trans hreg
  · simp only [hcalls1, replay_trace, if_true, hreg, printed, deliver]
    simp

theorem replay_publishing (E : Env) (pre : List log_callback) (c : log_callback)
    (post : List log_callback) (q : store_log_forward) (lf : Bool) (level : Int)
    (xfile : String) (xline : Nat) (xfunction xformat : String) (xargs : List Arg)
    (hE : publishes_on E c.fn c.priv q
      (logger_call lf level xfile xline xfunction xformat xargs))
    (hM : ∀ n, E.malloc_ok n = true)
    (hx : printed lf xfile xline xfunction xformat xargs ≠ q)
    (h1 : LOG_LVL_USER ≤ level) (h2 : level ≤ LOG_LVL_INFO) (fuel : Nat)
    (queue : List store_log_forward) :
    ∀ (t : State), t.log_callbacks = pre ++ c :: post →
      (t.log_callbacks.map (fun cb => cb.addr)).Nodup →
      (t.log_callbacks.map identity).Nodup →
      t.log_forward_count = 0 → level ≤ t.debug_level →
      2 * t.log_callbacks.length + 5 < fuel →
      ∃ t1, replay E fuel queue t = .ok t1 ∧ frame t t1 ∧
        t1.log_callbacks = t.log_callbacks ∧
        t1.calls = t.calls ++ queue.flatMap
          (replay_trace pre c post q (printed lf xfile xline xfunction xformat xargs)) := by
  induction queue with
  | nil =>
    intro t _ _ _ _ _ _
    exact ⟨t, rfl, frame_refl t, rfl, by simp⟩
  | cons e rest ih =>
    intro t hreg hnd hid h0 hpass hfuel
    have hstep : ∃ t1, log_forward E fuel t e.file e.line e.function e.string = .ok t1 ∧
        frame t t1 ∧ t1.log_callbacks = t.log_callbacks ∧
        t1.calls = t.calls ++
          replay_trace pre c post q (printed lf xfile xline xfunction xformat xargs) e := by
      by_cases heq : e = q
      · subst heq
        exact dispatch_publishing E pre c post e lf level xfile xline xfunction xformat xargs hE hx
          h1 h2 t fuel hreg hnd hid h0 hpass (hM _) hfuel
      · have hsil : ∀ cb ∈ t.log_callbacks,
            E.code cb.fn cb.priv e.file e.line e.function e.string = [] := by
          intro cb _
          rw [hE, if_neg]
          intro hm
          exact heq hm.2.2
        rw [log_forward_silent E t fuel e.file e.line e.function e.string hsil h0 hnd (by omega)]
        refine ⟨_, rfl, ⟨rfl, rfl, rfl, rfl, rfl, rfl, rfl, rfl, fun _ => rfl⟩, rfl, ?_⟩
        simp [replay_trace, heq, hreg]
    obtain ⟨t1, hfw, hfr, hreg1, hcalls1⟩ := hstep
    obtain ⟨t2, hrp, hfr2, hreg2, hcalls2⟩ := ih t1 (hreg1.trans hreg) (by rw [hreg1]; exact hnd)
      (by rw [hreg1]; exact hid) (hfr.1.trans h0) (by rw [hfr.2.1]; exact hpass)
      (by rw [hreg1]; exact hfuel)
    refine ⟨t2, ?_, frame_trans hfr hfr2, hreg2.trans hreg1, ?_⟩
    · rw [replay, hfw]
      exact hrp
    · rw [hcalls2, hcalls1]
      simp

/-- C8. Let the registry be `pre ++ c :: post` with pairwise distinct
identities, let the counter be 1 and the queue `q1 :: rest`, and let the
callback of `c`, whenever it is invoked with `q1`, publish a new event through
`log_printf` or `log_printf_lf` at a level that passes the threshold and is
forwarded (user to informational); `x` is the event this call hands to
`log_forward`, different from `q1`, and no other invocation makes a call.  Then `log_rethrow` returns (with enough
fuel) with the counter at 0, the queue empty and the registry unchanged, and it
has invoked, in this order: the subscriptions of `pre` and `c` with `q1`; then
every subscription with `x`, the published event, which therefore was delivered
at once and never queued; then the subscriptions of `post` with `q1`; and only
then the events of `rest`. -/
theorem publish_during_replay_is_immediate (E : Env) (pre : List log_callback)
    (c : log_callback) (post : List log_callback) (q1 : store_log_forward)
    (rest : List store_log_forward) (lf : Bool) (level : Int) (xfile : String) (xline : Nat)
    (xfunction xformat : String) (xargs : List Arg) (s : State) (fuel : Nat)
    (hE : publishes_on E c.fn c.priv q1
      (logger_call lf level xfile xline xfunction xformat xargs))
    (hM : ∀ n, E.malloc_ok n = true)
    (hx : printed lf xfile xline xfunction xformat xargs ≠ q1)
    (hlo : LOG_LVL_USER ≤ level) (hhi : level ≤ LOG_LVL_INFO) (hpass : level ≤ s.debug_level)
    (hreg : s.log_callbacks = pre ++ c :: post)
    (hnd : (s.log_callbacks.map (fun cb => cb.addr)).Nodup)
    (hid : (s.log_callbacks.map identity).Nodup)
    (h1 : s.log_forward_count = 1) (hq : s.log_head = q1 :: rest)
    (hfuel : 2 * s.log_callbacks.length + 5 < fuel) :
    ∃ s1, log_rethrow E fuel s = .ok s1 ∧ s1.log_forward_count = 0 ∧ s1.log_head = [] ∧
      s1.log_callbacks = s.log_callbacks ∧
      s1.calls = s.calls ++
        (pre.map (deliver q1.file q1.line q1.function q1.string) ++
          [deliver q1.file q1.line q1.function q1.string c]) ++
        s.log_callbacks.map (fun cb =>
          deliver (strip_dirs xfile) xline xfunction (printed_string lf xformat xargs) cb) ++
        post.map (deliver q1.file q1.line q1.function q1.string) ++
        rest.flatMap (replay_trace pre c post q1 (printed lf xfile xline xfunction xformat xargs)) := by
  have hcatch : log_catch s = .ok { s with log_forward_count := s.log_forward_count - 1 } := by
    unfold log_catch
    rw [if_pos (by omega)]
  have hz : s.log_forward_count - 1 = 0 := by omega
  obtain ⟨t1, hrp, hfr, hreg1, hcalls1⟩ := replay_publishing E pre c post q1 lf level xfile xline
    xfunction xformat xargs hE hM hx hlo hhi fuel s.log_head
    ({ s with log_forward_count := s.log_forward_count - 1 } : State) hreg hnd hid hz hpass hfuel
  rw [hq] at hcalls1
  refine ⟨{ t1 with log_head := [] }, ?_, ?_, rfl, hreg1, ?_⟩
  · unfold log_rethrow
    rw [hcatch]
    simp only
    rw [if_pos hz]
    have hrp' : replay E fuel s.log_head
        { s with log_forward_count := s.log_forward_count - 1 } = .ok t1 := hrp
    rw [hrp']
  · exact hfr.1.trans hz
  · simp only [hcalls1]
    simp [replay_trace, hreg, printed]

/-- C8 on a queue of two events and a registry of two: the callback `(8, 80)`
logs `"again"` when it receives the first queued event. -/
theorem publish_during_replay_is_immediate_witness :
    ∃ s1, log_rethrow echo 10
        { debug_level := 2, log_forward_count := 1,
          log_callbacks := [⟨1, 8, 80⟩, ⟨0, 7, 70⟩], mallocs := 2,
          log_head := [⟨"a.c", 1, "f", "one\n"⟩, ⟨"b.c", 2, "g", "two\n"⟩] } = .ok s1 ∧
      s1.log_head = [] ∧
      s1.calls =
        [⟨8, 80, "a.c", 1, "f", "one\n"⟩,
         ⟨8, 80, "cb.c", 5, "cb", "again\n"⟩, ⟨7, 70, "cb.c", 5, "cb", "again\n"⟩,
         ⟨7, 70, "a.c", 1, "f", "one\n"⟩,
         ⟨8, 80, "b.c", 2, "g", "two\n"⟩, ⟨7, 70, "b.c", 2, "g", "two\n"⟩] := by
  obtain ⟨s1, h, _, hq, _, hcalls⟩ := publish_during_replay_is_immediate echo [] ⟨1, 8, 80⟩
    [⟨0, 7, 70⟩] ⟨"a.c", 1, "f", "one\n"⟩ [⟨"b.c", 2, "g", "two\n"⟩] true 2 "src/cb.c" 5 "cb" "again" []
    { debug_level := 2, log_forward_count := 1,
      log_callbacks := [⟨1, 8, 80⟩, ⟨0, 7, 70⟩], mallocs := 2,
      log_head := [⟨"a.c", 1, "f", "one\n"⟩, ⟨"b.c", 2, "g", "two\n"⟩] } 10
    (fun _ _ _ _ _ _ => rfl) (fun _ => rfl) (by decide) (by decide) (by decide) (by decide)
    rfl (by decide) (by decide) rfl rfl (by decide)
  exact ⟨s1, h, hq, hcalls.trans (by decide)⟩

/-! ## C11: the queue at counter zero -/

theorem run_op_queue_inv (E : Env) (fuel : Nat) (op : Op) (s s1 : State)
    (hc : 0 ≤ s.log_forward_count)
    (hinv : s.log_forward_count = 0 → s.log_head = [])
    (hop : no_catch_to_zero s.log_forward_count [op] = true)
    (h : run_op E fuel s op = .ok s1) :
    (s1.log_forward_count = 0 → s1.log_head = []) ∧
    s1.log_forward_count = counter_after op s.log_forward_count := by
  cases op with
  | log_try =>
    simp only [run_op, log_try, Except.ok.injEq] at h
    subst h
    refine ⟨fun h0 => ?_, rfl⟩
    simp only at h0
    omega
  | log_forward file line function string =>
    have hfr := (frame_all E fuel).1 _ _ _ _ _ _ h
    refine ⟨fun h0 => ?_, hfr.1⟩
    have hs0 : s.log_forward_count = 0 := hfr.1 ▸ h0
    rw [hfr.2.2.2.2.2.2.2.2 hs0]
    exact hinv hs0
  | log_catch =>
    simp only [no_catch_to_zero, Bool.and_true, decide_eq_true_eq] at hop
    simp only [run_op, log_catch] at h
    split at h
    · cases h
      refine ⟨fun h0 => ?_, rfl⟩
      simp only at h0
      omega
    · cases h
  | log_rethrow =>
    obtain ⟨hpos, hcnt⟩ := log_rethrow_counter E fuel s s1 h
    refine ⟨fun h0 => ?_, hcnt⟩
    simp only [run_op] at h
    unfold log_rethrow log_catch at h
    rw [if_pos hpos] at h
    simp only at h
    split at h
    · split at h
      · cases h
      · cases h
        rfl
    · rename_i hne
      cases h
      exact absurd h0 hne

theorem no_catch_to_zero_cons (c : Int) (op : Op) (ops : List Op)
    (h : no_catch_to_zero c (op :: ops) = true) :
    no_catch_to_zero c [op] = true ∧
    no_catch_to_zero (counter_after op c) ops = true := by
  cases op <;>
    simp only [no_catch_to_zero, counter_after, Bool.and_eq_true, decide_eq_true_eq,
      and_true, true_and] at h ⊢
  · exact h
  · exact h
  · exact h
  · exact h

theorem run_queue_inv (E : Env) (fuel : Nat) (ops : List Op) :
    ∀ (s s1 : State), 0 ≤ s.log_forward_count →
      (s.log_forward_count = 0 → s.log_head = []) →
      no_catch_to_zero s.log_forward_count ops = true →
      run E fuel ops s = .ok s1 →
      (s1.log_forward_count = 0 → s1.log_head = []) := by
  induction ops with
  | nil =>
    intro s s1 _ hinv _ h
    rw [run] at h
    cases h
    exact hinv
  | cons op ops ih =>
    intro s s1 hc hinv hops h
    rw [run] at h
    split at h
    · cases h
    · rename_i s2 h2
      obtain ⟨hop, hrest⟩ := no_catch_to_zero_cons _ op ops hops
      obtain ⟨hinv2, hcnt⟩ := run_op_queue_inv E fuel op s s2 hc hinv hop h2
      have hc2 := run_op_counter_nonneg E fuel op s s2 hc h2
      rw [← hcnt] at hrest
      exact ih s2 s1 hc2 hinv2 hrest h

/-- C11 as stated fails: `log_try`, one `log_forward`, then `log_catch`.  No
exit is called at counter 0, the run returns with the counter at 0, no replay
is in progress, and the event is still in the queue. -/
theorem queue_left_by_log_catch :
    run quiet 1 [Op.log_try, Op.log_forward "a.c" 1 "f" "one\n", Op.log_catch] {} =
      .ok { log_forward_count := 0, log_head := [⟨"a.c", 1, "f", "one\n"⟩] } ∧
    ({ log_forward_count := 0, log_head := [⟨"a.c", 1, "f", "one\n"⟩] } : State).log_head ≠ [] :=
  ⟨rfl, by decide⟩

/-- C11 (amended). From a state with the counter at 0 and the queue empty,
after every sequence of `log_try`, `log_catch`, `log_rethrow` and `log_forward`
calls that returns (so no exit was called at counter 0) and in which no
`log_catch` brought the counter to 0, the queue is empty if the counter is 0.
This holds whatever the callbacks do. -/
theorem queue_empty_at_counter_zero (E : Env) (fuel : Nat) (ops : List Op) (s s1 : State)
    (h0 : s.log_forward_count = 0) (hq : s.log_head = [])
    (hops : no_catch_to_zero 0 ops = true) (hrun : run E fuel ops s = .ok s1) :
    s1.log_forward_count = 0 → s1.log_head = [] :=
  run_queue_inv E fuel ops s s1 (by omega) (fun _ => hq) (by rw [h0]; exact hops) hrun

/-- C11 (amended) on a run with an inner region left by `log_catch` and the
outer one by `log_rethrow`. -/
theorem queue_empty_at_counter_zero_witness :
    run quiet 2
        [Op.log_try, Op.log_forward "a.c" 1 "f" "one\n", Op.log_try, Op.log_catch,
          Op.log_rethrow]
        { log_callbacks := [⟨0, 7, 70⟩], mallocs := 1 } =
      .ok { log_callbacks := [⟨0, 7, 70⟩], mallocs := 1,
            calls := [⟨7, 70, "a.c", 1, "f", "one\n"⟩] } ∧
    ({ log_callbacks := [⟨0, 7, 70⟩], mallocs := 1,
       calls := [⟨7, 70, "a.c", 1, "f", "one\n"⟩] } : State).log_head = [] :=
  ⟨rfl, queue_empty_at_counter_zero quiet 2
    [Op.log_try, Op.log_forward "a.c" 1 "f" "one\n", Op.log_try, Op.log_catch, Op.log_rethrow]
    { log_callbacks := [⟨0, 7, 70⟩], mallocs := 1 }
    { log_callbacks := [⟨0, 7, 70⟩], mallocs := 1, calls := [⟨7, 70, "a.c", 1, "f", "one\n"⟩] }
    rfl rfl (by decide) rfl rfl⟩

/-! ## C12: what reaches the sink -/

theorem log_puts_sink_cases (s s1 : State) (level : Int) (file : String) (line : Nat)
    (function string : String)
    (h : log_puts_sink s level file line function string = .ok s1) :
    s1 = s ∨ (has_newline string = true ∧
      ∃ front, s1 = { s with log_output := s.log_output ++ [front ++ string] }) := by
  unfold log_puts_sink at h
  split at h
  · rename_i hnl
    split at h
    · simp only at h
      split at h
      · cases h
      · cases h
        right
        exact ⟨hnl, _, rfl⟩
    · split at h
      · split at h
        · split at h
          · split at h
            · cases h
            · cases h
              right
              exact ⟨hnl, _, rfl⟩
          · cases h
            right
            exact ⟨hnl, _, rfl⟩
        · cases h
          left; rfl
      · cases h
        left; rfl
  · cases h
    left; rfl

/-- C12 as stated fails: the message `"a\nb"` does not end in a newline, and
at informational level `log_puts` writes the line `"Info : a\nb"` to the
sink. -/
theorem inner_newline_is_written :
    ends_in_newline "a\nb" = false ∧ LOG_LVL_INFO ≠ LOG_LVL_OUTPUT ∧
    log_puts quiet 2 { debug_level := 2 } LOG_LVL_INFO "a.c" 1 "f" "a\nb" =
      .ok { debug_level := 2, log_output := ["Info : a\nb"] } :=
  ⟨by decide, by decide, rfl⟩

/-- C12 (amended). At every level other than `LOG_LVL_OUTPUT`:
(1) whenever the block of `log_puts` that writes to the sink returns, it has
either written nothing or it has written one line, some text in front of the
message followed by the message itself, and then the message contains a
newline somewhere (the test is `strchr`, not a test of the last character);
(2) for a message that contains no newline that block writes nothing, and
`log_puts` as a whole returns (callbacks that make no call into log.c, enough
fuel) with the sink as it was. -/
theorem sink_written_only_with_newline (E : Env) (hE : inert E) (s : State) (fuel : Nat)
    (level : Int) (file : String) (line : Nat) (function string : String)
    (hraw : level ≠ LOG_LVL_OUTPUT)
    (hnd : (s.log_callbacks.map (fun cb => cb.addr)).Nodup)
    (hfuel : s.log_callbacks.length + 1 < fuel) :
    (∀ s1, log_puts_sink s level (strip_dirs file) line function string = .ok s1 →
      s1 = s ∨ (has_newline string = true ∧
        ∃ front, s1 = { s with log_output := s.log_output ++ [front ++ string] })) ∧
    (has_newline string = false →
      log_puts_sink s level (strip_dirs file) line function string = .ok s ∧
      ∃ s1, log_puts E fuel s level file line function string = .ok s1 ∧
        s1.log_output = s.log_output) := by
  refine ⟨fun s1 h => log_puts_sink_cases s s1 level _ line function string h, ?_⟩
  intro hnl
  have hsink : log_puts_sink s level (strip_dirs file) line function string = .ok s := by
    unfold log_puts_sink
    rw [if_neg (by simp [hnl])]
  refine ⟨hsink, ?_⟩
  obtain ⟨f, hf⟩ : ∃ f, fuel = f + 1 := ⟨fuel - 1, by omega⟩
  subst hf
  rw [log_puts, if_neg hraw]
  simp only [hsink]
  split
  · by_cases h0 : s.log_forward_count = 0
    · rw [log_forward_inert E hE s f _ _ _ _ h0 hnd (by omega)]
      exact ⟨_, rfl, rfl⟩
    · have hfw : log_forward E f s (strip_dirs file) line function string =
          .ok { s with log_head := s.log_head ++ [⟨strip_dirs file, line, function, string⟩] } := by
        cases f <;> rw [log_forward, if_neg h0]
      rw [hfw]
      exact ⟨_, rfl, rfl⟩
  · exact ⟨_, rfl, rfl⟩

/-- C12 (amended) on a message without a newline at warning level. -/
theorem sink_written_only_with_newline_witness :
    LOG_LVL_WARNING ≠ LOG_LVL_OUTPUT ∧ has_newline "halted" = false ∧
    ∃ s1, log_puts quiet 3 { debug_level := 3, log_callbacks := [⟨0, 7, 70⟩], mallocs := 1 }
        LOG_LVL_WARNING "src/a.c" 1 "f" "halted" = .ok s1 ∧
      s1.log_output = [] :=
  ⟨by decide, by decide,
    ((sink_written_only_with_newline quiet (fun _ _ _ _ _ _ => rfl)
      { debug_level := 3, log_callbacks := [⟨0, 7, 70⟩], mallocs := 1 } 3
      LOG_LVL_WARNING "src/a.c" 1 "f" "halted" (by decide) (by decide) (by decide)).2
      (by decide)).2⟩

/-! ## C13: which levels are forwarded -/

theorem log_puts_sink_keeps (s s1 : State) (level : Int) (file : String) (line : Nat)
    (function string : String)
    (h : log_puts_sink s level file line function string = .ok s1) :
    s1.calls = s.calls ∧ s1.log_head = s.log_head ∧ s1.log_callbacks = s.log_callbacks ∧
    s1.log_forward_count = s.log_forward_count := by
  obtain ⟨out, rfl⟩ := log_puts_sink_ok h
  exact ⟨rfl, rfl, rfl, rfl⟩

theorem log_puts_after_sink (E : Env) (hE : inert E) (s : State) (f : Nat) (level : Int)
    (file : String) (line : Nat) (function string : String)
    (hraw : level ≠ LOG_LVL_OUTPUT)
    (hnd : (s.log_callbacks.map (fun cb => cb.addr)).Nodup)
    (hfuel : s.log_callbacks.length < f) :
    ∀ s1, log_puts_sink s level (strip_dirs file) line function string = .ok s1 →
      (level ≤ LOG_LVL_INFO →
        log_puts E (f + 1) s level file line function string =
          log_forward E f s1 (strip_dirs file) line function string ∧
        (s.log_forward_count = 0 →
          log_puts E (f + 1) s level file line function string =
            .ok { s1 with calls := s.calls ++
                    s.log_callbacks.map (deliver (strip_dirs file) line function string) }) ∧
        (s.log_forward_count ≠ 0 →
          log_puts E (f + 1) s level file line function string =
            .ok { s1 with log_head := s.log_head ++
                    [⟨strip_dirs file, line, function, string⟩] })) ∧
      (LOG_LVL_INFO < level →
        (∀ fuel, log_puts E fuel s level file line function string = .ok s1) ∧
        s1.calls = s.calls ∧ s1.log_head = s.log_head) := by
  intro s1 hsink
  obtain ⟨hcalls, hhead, hreg, hcnt⟩ := log_puts_sink_keeps s s1 level _ line function string hsink
  constructor
  · intro hinfo
    have hput : log_puts E (f + 1) s level file line function string =
        log_forward E f s1 (strip_dirs file) line function string := by
      rw [log_puts, if_neg hraw]
      simp only [hsink]
      rw [if_pos hinfo]
    refine ⟨hput, ?_, ?_⟩
    · intro h0
      rw [hput, log_forward_inert E hE s1 f _ _ _ _ (hcnt.trans h0) (by rw [hreg]; exact hnd)
        (by rw [hreg]; exact hfuel), hcalls, hreg]
    · intro h0
      rw [hput]
      have hne : s1.log_forward_count ≠ 0 := by rw [hcnt]; exact h0
      have hfw : log_forward E f s1 (strip_dirs file) line function string =
          .ok { s1 with log_head := s1.log_head ++
            [⟨strip_dirs file, line, function, string⟩] } := by
        cases f <;> rw [log_forward, if_neg hne]
      rw [hfw, hhead]
  · intro hdebug
    refine ⟨?_, hcalls, hhead⟩
    intro fuel
    have hnot : ¬ level ≤ LOG_LVL_INFO := by omega
    cases fuel <;> rw [log_puts, if_neg hraw] <;> simp only [hsink] <;> rw [if_neg hnot]

/-- C13 as stated fails: `LOG_LVL_SILENT` is a level other than
`LOG_LVL_OUTPUT` and at most `LOG_LVL_INFO`, but `log_strings` has no entry for
it.  With `debug_level` at `LOG_LVL_DEBUG` and a message with a newline the
sink block reads `log_strings[level + 1]` at index -2, outside the array, and
`log_puts` does not get to its call of `log_forward`. -/
theorem silent_level_reads_outside_log_strings :
    LOG_LVL_SILENT ≠ LOG_LVL_OUTPUT ∧ LOG_LVL_SILENT ≤ LOG_LVL_INFO ∧
    log_puts quiet 5 { debug_level := 3, log_callbacks := [⟨0, 7, 70⟩], mallocs := 1 }
        LOG_LVL_SILENT "a.c" 1 "f" "x\n" = .error .out_of_bounds :=
  ⟨by decide, by decide, rfl⟩

/-- C13 (amended). At every level from `LOG_LVL_USER` to `LOG_LVL_DEBUG`, the
levels with an entry in `log_strings`, and for every message, with or without
a newline, the block of `log_puts` that writes to the sink returns, having
appended some text `out` (possibly none) to the sink.  Whatever `out` is:
(1) if the level is at most `LOG_LVL_INFO`, `log_puts` is that block followed
by exactly one call of `log_forward` with the event; with callbacks that make
no call into log.c this call invokes every subscription once when the counter
is 0, and appends exactly one node to the queue when it is not;
(2) if the level is above `LOG_LVL_INFO`, so for `LOG_LVL_DEBUG`, `log_puts`
returns the state of the sink block for every amount of fuel: no callback is
invoked and the queue is unchanged. -/
theorem forwarded_up_to_info (E : Env) (hE : inert E) (s : State) (f : Nat) (level : Int)
    (file : String) (line : Nat) (function string : String)
    (hlo : LOG_LVL_USER ≤ level) (hhi : level ≤ LOG_LVL_DEBUG)
    (hnd : (s.log_callbacks.map (fun cb => cb.addr)).Nodup)
    (hfuel : s.log_callbacks.length < f) :
    ∃ out,
      log_puts_sink s level (strip_dirs file) line function string =
        .ok { s with log_output := s.log_output ++ out } ∧
      (level ≤ LOG_LVL_INFO →
        log_puts E (f + 1) s level file line function string =
          log_forward E f { s with log_output := s.log_output ++ out }
            (strip_dirs file) line function string ∧
        (s.log_forward_count = 0 →
          log_puts E (f + 1) s level file line function string =
            .ok { s with log_output := s.log_output ++ out,
                         calls := s.calls ++
                    s.log_callbacks.map (deliver (strip_dirs file) line function string) }) ∧
        (s.log_forward_count ≠ 0 →
          log_puts E (f + 1) s level file line function string =
            .ok { s with log_output := s.log_output ++ out,
                         log_head := s.log_head ++
                    [⟨strip_dirs file, line, function, string⟩] })) ∧
      (LOG_LVL_INFO < level →
        ∀ fuel, log_puts E fuel s level file line function string =
          .ok { s with log_output := s.log_output ++ out }) := by
  simp only [LOG_LVL_USER, LOG_LVL_DEBUG] at hlo hhi
  have hraw : level ≠ LOG_LVL_OUTPUT := by
    simp only [LOG_LVL_OUTPUT]
    omega
  have h : level = -1 ∨ level = 0 ∨ level = 1 ∨ level = 2 ∨ level = 3 := by omega
  have hl : ∃ lvl, log_strings_at level = some lvl := by
    rcases h with h | h | h | h | h <;> subst h <;> exact ⟨_, rfl⟩
  obtain ⟨lvl, hlvl⟩ := hl
  obtain ⟨out, hout⟩ := log_puts_sink_total s level (strip_dirs file) line function string
    lvl hlvl
  have hall := log_puts_after_sink E hE s f level file line function string hraw hnd hfuel
    ({ s with log_output := s.log_output ++ out } : State) hout
  refine ⟨out, hout, ?_, ?_⟩
  · intro hinfo
    obtain ⟨h1, h2, h3⟩ := hall.1 hinfo
    exact ⟨h1, h2, h3⟩
  · intro hdebug
    exact (hall.2 hdebug).1

/-- C13 (amended) on an informational and on a debug event with a newline,
`debug_level` at 3, counter at 0, one subscription: the first is delivered to
the subscription, the second is not. -/
theorem forwarded_up_to_info_witness :
    (∃ s1, log_puts quiet 3 { debug_level := 3, log_callbacks := [⟨0, 7, 70⟩], mallocs := 1 }
        LOG_LVL_INFO "src/a.c" 1 "f" "halted\n" = .ok s1 ∧
      s1.calls = [⟨7, 70, "a.c", 1, "f", "halted\n"⟩]) ∧
    (∃ s1, log_puts quiet 3 { debug_level := 3, log_callbacks := [⟨0, 7, 70⟩], mallocs := 1 }
        LOG_LVL_DEBUG "src/a.c" 1 "f" "halted\n" = .ok s1 ∧
      s1.calls = []) :=
  ⟨(forwarded_up_to_info quiet (fun _ _ _ _ _ _ => rfl)
      { debug_level := 3, log_callbacks := [⟨0, 7, 70⟩], mallocs := 1 } 2 LOG_LVL_INFO
      "src/a.c" 1 "f" "halted\n" (by decide) (by decide) (by decide) (by decide)).elim
      (fun _ h => ⟨_, (h.2.1 (by decide)).2.1 rfl, rfl⟩),
   (forwarded_up_to_info quiet (fun _ _ _ _ _ _ => rfl)
      { debug_level := 3, log_callbacks := [⟨0, 7, 70⟩], mallocs := 1 } 2 LOG_LVL_DEBUG
      "src/a.c" 1 "f" "halted\n" (by decide) (by decide) (by decide) (by decide)).elim
      (fun _ h => ⟨_, h.2.2 (by decide) 3, rfl⟩)⟩

/-! ## C16: the overrun diagnostic -/

theorem keep_alive_inert (E : Env) (hE : inert E) (s : State) (fuel : Nat)
    (hnd : (s.log_callbacks.map (fun cb => cb.addr)).Nodup)
    (hfuel : s.log_callbacks.length + 2 < fuel) :
    ∃ s1, keep_alive E fuel s = .ok s1 ∧
      s1.emitted = s.emitted ++ overrun_diagnostic s ++ liveness_signal s ∧
      s1.last_time = (if s.clock - s.last_time > 500 then s.clock else s.last_time) ∧
      s1.current_time = s.clock ∧ s1.clock = s.clock ∧
      s1.gdb_actual_connections = s.gdb_actual_connections ∧
      s1.log_callbacks = s.log_callbacks := by
  have hstep : ∃ s1,
      (if ({ s with current_time := timeval_ms s } : State).current_time -
            ({ s with current_time := timeval_ms s } : State).last_time > 1000 then
          if ({ s with current_time := timeval_ms s } : State).gdb_actual_connections ≠ 0 then
            LOG_WARNING E fuel { s with current_time := timeval_ms s } FILE__ 482 "keep_alive"
              ("keep_alive() was not invoked in the 1000ms timelimit. GDB alive packet not " ++
                "sent! (%lld). Workaround: increase \"set remotetimeout\" in GDB")
              [Arg.int (({ s with current_time := timeval_ms s } : State).current_time -
                ({ s with current_time := timeval_ms s } : State).last_time)]
          else
            LOG_DEBUG E fuel { s with current_time := timeval_ms s } FILE__ 488 "keep_alive"
              ("keep_alive() was not invoked in the 1000ms timelimit (%lld). This may cause " ++
                "trouble with GDB connections.")
              [Arg.int (({ s with current_time := timeval_ms s } : State).current_time -
                ({ s with current_time := timeval_ms s } : State).last_time)]
        else .ok { s with current_time := timeval_ms s }) = .ok s1 ∧
      emits { s with current_time := timeval_ms s } s1 (overrun_diagnostic s) := by
    unfold overrun_diagnostic
    by_cases h1000 : s.clock - s.last_time > 1000
    · rw [if_pos h1000, if_pos (show ({ s with current_time := timeval_ms s } : State).current_time -
        ({ s with current_time := timeval_ms s } : State).last_time > 1000 from h1000)]
      by_cases hgdb : s.gdb_actual_connections ≠ 0
      · rw [if_pos hgdb, if_pos (show ({ s with current_time := timeval_ms s } :
          State).gdb_actual_connections ≠ 0 from hgdb)]
        exact log_printf_lf_inert E hE
          ({ s with current_time := timeval_ms s } : State) fuel LOG_LVL_WARNING FILE__ 482
          "keep_alive" _ _ "Warn : " rfl hnd hfuel
      · rw [if_neg hgdb, if_neg (show ¬ ({ s with current_time := timeval_ms s } :
          State).gdb_actual_connections ≠ 0 from hgdb)]
        exact log_printf_lf_inert E hE
          ({ s with current_time := timeval_ms s } : State) fuel LOG_LVL_DEBUG FILE__ 488
          "keep_alive" _ _ "Debug: " rfl hnd hfuel
    · rw [if_neg h1000, if_neg (show ¬ ({ s with current_time := timeval_ms s } :
        State).current_time - ({ s with current_time := timeval_ms s } : State).last_time > 1000
        from h1000)]
      exact ⟨_, rfl, frame_refl _, rfl, by simp⟩
  obtain ⟨s1, hw, hfr, hreg, hem⟩ := hstep
  obtain ⟨_, _, hlast, hcur, _, _, hgdb1, hclock1, _⟩ := hfr
  have hcur' : s1.current_time = s.clock := hcur
  have hlast' : s1.last_time = s.last_time := hlast
  unfold keep_alive
  simp only
  rw [hw]
  simp only
  unfold liveness_signal
  by_cases h500 : s.clock - s.last_time > 500
  · have h500' : s1.current_time - s1.last_time > 500 := by rw [hcur', hlast']; exact h500
    rw [if_pos h500', if_pos h500, if_pos h500]
    obtain ⟨s2, h2, hfr2, hreg2, hem2⟩ := log_printf_inert E hE s1 fuel LOG_LVL_USER FILE__ 496
      "keep_alive" "%s" [Arg.str ""] "User : " rfl (by rw [hreg]; exact hnd)
      (by rw [hreg]; exact hfuel)
    obtain ⟨_, _, _, hcur2, _, _, hgdb2, hclock2, _⟩ := hfr2
    unfold LOG_USER_N
    rw [h2]
    refine ⟨_, rfl, ?_, ?_, ?_, ?_, ?_, ?_⟩
    · simp only [hem2, hem]
      rfl
    · simp only [hcur2, hcur']
    · simp only [hcur2, hcur']
    · exact hclock2.trans hclock1
    · exact hgdb2.trans hgdb1
    · exact hreg2.trans hreg
  · have h500' : ¬ s1.current_time - s1.last_time > 500 := by rw [hcur', hlast']; exact h500
    rw [if_neg h500', if_neg h500, if_neg h500]
    exact ⟨_, rfl, by simp [hem], hlast', hcur', hclock1, hgdb1, hreg⟩

/-- C16. With callbacks that make no call into log.c and enough fuel,
`keep_alive` returns for every `last_time`, clock reading and connection
count, and the events it hands to the logger are the overrun diagnostic
followed by the liveness signal, where
(1) the diagnostic is one event of warning level when `clock - last_time > 1000`
and `gdb_actual_connections` is not zero, one event of debug level when
`clock - last_time > 1000` and it is zero, and absent otherwise;
(2) the liveness signal and the new `last_time` are those of the `> 500` test
alone, with or without a diagnostic;
(3) `gdb_actual_connections` is unchanged. -/
theorem overrun_diagnostic_is_advisory (E : Env) (hE : inert E) (s : State) (fuel : Nat)
    (hnd : (s.log_callbacks.map (fun cb => cb.addr)).Nodup)
    (hfuel : s.log_callbacks.length + 2 < fuel) :
    ∃ s1, keep_alive E fuel s = .ok s1 ∧
      s1.emitted = s.emitted ++ overrun_diagnostic s ++ liveness_signal s ∧
      (s.clock - s.last_time > 1000 → s.gdb_actual_connections ≠ 0 →
        ∃ d, overrun_diagnostic s = [d] ∧ d.level = LOG_LVL_WARNING) ∧
      (s.clock - s.last_time > 1000 → s.gdb_actual_connections = 0 →
        ∃ d, overrun_diagnostic s = [d] ∧ d.level = LOG_LVL_DEBUG) ∧
      (¬ s.clock - s.last_time > 1000 → overrun_diagnostic s = []) ∧
      liveness_signal s = (if s.clock - s.last_time > 500 then [liveness_event] else []) ∧
      s1.last_time = (if s.clock - s.last_time > 500 then s.clock else s.last_time) ∧
      s1.gdb_actual_connections = s.gdb_actual_connections := by
  obtain ⟨s1, h, hem, hlast, _, _, hgdb, _⟩ := keep_alive_inert E hE s fuel hnd hfuel
  refine ⟨s1, h, hem, ?_, ?_, ?_, rfl, hlast, hgdb⟩
  · intro h1000 hg
    unfold overrun_diagnostic
    rw [if_pos h1000, if_pos hg]
    exact ⟨_, rfl, rfl⟩
  · intro h1000 hg
    unfold overrun_diagnostic
    rw [if_pos h1000, if_neg (by simp [hg])]
    exact ⟨_, rfl, rfl⟩
  · intro h1000
    unfold overrun_diagnostic
    rw [if_neg h1000]

/-- C16 at an overrun of 1600 ms with one connection: a warning and the
liveness event, `last_time` set to the clock reading. -/
theorem overrun_diagnostic_is_advisory_witness :
    ∃ s1, keep_alive quiet 3 { clock := 1600, gdb_actual_connections := 1 } = .ok s1 ∧
      (∃ d, s1.emitted = [d, liveness_event] ∧ d.level = LOG_LVL_WARNING) ∧
      s1.last_time = 1600 ∧ s1.gdb_actual_connections = 1 := by
  obtain ⟨s1, h, hem, hw, _, _, _, hlast, hgdb⟩ := overrun_diagnostic_is_advisory quiet
    (fun _ _ _ _ _ _ => rfl) { clock := 1600, gdb_actual_connections := 1 } 3
    (by decide) (by decide)
  obtain ⟨d, hd, hlvl⟩ := hw (by decide) (by decide)
  refine ⟨s1, h, ⟨d, ?_, hlvl⟩, hlast, hgdb⟩
  rw [hem, hd]
  rfl

/-! ## C17: the keep-alive timestamp -/

theorem keep_alive_times (E : Env) (fuel : Nat) (s s1 : State)
    (h : keep_alive E fuel s = .ok s1) :
    s1.current_time = s.clock ∧
    s1.last_time = (if s.clock - s.last_time > 500 then s.clock else s.last_time) := by
  unfold keep_alive at h
  simp only at h
  split at h
  · cases h
  · rename_i s2 hw
    have hfr : frame { s with current_time := timeval_ms s } s2 := by
      split at hw
      · split at hw
        · exact (frame_all E fuel).2.2.2.2.2 _ _ _ _ _ _ _ _ hw
        · exact (frame_all E fuel).2.2.2.2.2 _ _ _ _ _ _ _ _ hw
      · cases hw
        exact frame_refl _
    obtain ⟨_, _, hlast, hcur, _⟩ := hfr
    have hcur' : s2.current_time = s.clock := hcur
    have hlast' : s2.last_time = s.last_time := hlast
    rw [hcur', hlast'] at h
    split at h
    · rename_i h500
      split at h
      · cases h
      · rename_i s3 hu
        cases h
        have hfr3 := (frame_all E fuel).2.2.2.2.1 _ _ _ _ _ _ _ _ hu
        obtain ⟨_, _, _, hcur3, _⟩ := hfr3
        simp only [hcur3, hcur', if_pos h500, and_self]
    · rename_i h500
      cases h
      simp only [hcur', hlast', if_neg h500, and_self]

theorem run_timer_op_times (E : Env) (fuel : Nat) (op : TimerOp) (s s1 : State)
    (hle : s.last_time ≤ reading op) (h : run_timer_op E fuel s op = .ok s1) :
    s.last_time ≤ s1.last_time ∧ s1.last_time ≤ reading op ∧ s1.current_time = reading op := by
  cases op with
  | keep_alive t =>
    simp only [reading] at hle ⊢
    obtain ⟨hcur, hlast⟩ := keep_alive_times E fuel _ s1 h
    simp only at hcur hlast
    refine ⟨?_, ?_, hcur⟩
    · rw [hlast]
      split <;> omega
    · rw [hlast]
      split <;> omega
  | kept_alive t =>
    simp only [reading] at hle ⊢
    simp only [run_timer_op, kept_alive, timeval_ms, Except.ok.injEq] at h
    subst h
    exact ⟨hle, le_refl _, rfl⟩

theorem run_timer_times (E : Env) (fuel : Nat) (ops : List TimerOp) :
    ∀ (t0 : Int) (s s1 : State), s.last_time ≤ t0 → clock_ordered t0 ops = true →
      run_timer E fuel ops s = .ok s1 →
      s.last_time ≤ s1.last_time ∧ s1.last_time ≤ last_reading t0 ops ∧
      (ops ≠ [] → s1.current_time = last_reading t0 ops) := by
  induction ops with
  | nil =>
    intro t0 s s1 hle _ h
    rw [run_timer] at h
    cases h
    exact ⟨le_refl _, hle, fun hne => absurd rfl hne⟩
  | cons op ops ih =>
    intro t0 s s1 hle hord h
    simp only [clock_ordered, Bool.and_eq_true, decide_eq_true_eq] at hord
    rw [run_timer] at h
    split at h
    · cases h
    · rename_i s2 h2
      obtain ⟨ha, hb, hc⟩ := run_timer_op_times E fuel op s s2 (le_trans hle hord.1) h2
      obtain ⟨hd, he, hf⟩ := ih (reading op) s2 s1 hb hord.2 h
      refine ⟨le_trans ha hd, he, fun _ => ?_⟩
      cases ops with
      | nil =>
        rw [run_timer] at h
        cases h
        exact hc
      | cons op2 ops2 => exact hf (List.cons_ne_nil _ _)

theorem clock_ordered_append (pre suf : List TimerOp) :
    ∀ t0, clock_ordered t0 (pre ++ suf) = true →
      clock_ordered t0 pre = true ∧ clock_ordered (last_reading t0 pre) suf = true := by
  induction pre with
  | nil =>
    intro t0 h
    exact ⟨rfl, h⟩
  | cons op pre ih =>
    intro t0 h
    simp only [List.cons_append, clock_ordered, Bool.and_eq_true, decide_eq_true_eq] at h ⊢
    obtain ⟨h1, h2⟩ := ih (reading op) h.2
    exact ⟨⟨h.1, h1⟩, h2⟩

theorem run_timer_inert (E : Env) (hE : inert E) (fuel : Nat) (ops : List TimerOp) :
    ∀ (s : State), (s.log_callbacks.map (fun cb => cb.addr)).Nodup →
      s.log_callbacks.length + 2 < fuel → ∃ s1, run_timer E fuel ops s = .ok s1 := by
  induction ops with
  | nil =>
    intro s _ _
    exact ⟨s, rfl⟩
  | cons op ops ih =>
    intro s hnd hfuel
    have hstep : ∃ s2, run_timer_op E fuel s op = .ok s2 ∧ s2.log_callbacks = s.log_callbacks := by
      cases op with
      | keep_alive t =>
        obtain ⟨s2, h, _, _, _, _, _, hreg⟩ := keep_alive_inert E hE
          ({ s with clock := t } : State) fuel hnd hfuel
        exact ⟨s2, h, hreg⟩
      | kept_alive t => exact ⟨_, rfl, rfl⟩
    obtain ⟨s2, h2, hreg⟩ := hstep
    obtain ⟨s1, h1⟩ := ih s2 (by rw [hreg]; exact hnd) (by rw [hreg]; exact hfuel)
    exact ⟨s1, by rw [run_timer, h2]; exact h1⟩

/-- C17. Let the clock readings of a sequence of `keep_alive` and `kept_alive`
calls not decrease and start at or after the initial `last_time`.  Then,
whatever the callbacks do:
(1) between the state `sp` after any initial part of the calls and the state
`s1` after all of them `last_time` has not decreased, and after at least one
call `last_time ≤ current_time` holds, in `sp` and in `s1`;
(2) with callbacks that make no call into log.c (and enough fuel) every such
sequence of calls returns;
(3) `kept_alive` sets `current_time` and `last_time` to the clock reading and
changes nothing else: it emits no event. -/
theorem last_time_never_decreases (E : Env) (fuel : Nat) (ops : List TimerOp) (s : State)
    (hord : clock_ordered s.last_time ops = true) :
    (∀ pre suf sp s1, ops = pre ++ suf → run_timer E fuel pre s = .ok sp →
      run_timer E fuel suf sp = .ok s1 →
      s.last_time ≤ sp.last_time ∧ sp.last_time ≤ s1.last_time ∧
      (pre ≠ [] → sp.last_time ≤ sp.current_time) ∧
      (ops ≠ [] → s1.last_time ≤ s1.current_time)) ∧
    (inert E → (s.log_callbacks.map (fun cb => cb.addr)).Nodup →
      s.log_callbacks.length + 2 < fuel → ∃ s1, run_timer E fuel ops s = .ok s1) ∧
    (∀ t : State, kept_alive t = { t with current_time := t.clock, last_time := t.clock }) := by
  refine ⟨?_, fun hE hnd hfuel => run_timer_inert E hE fuel ops s hnd hfuel, fun _ => rfl⟩
  intro pre suf sp s1 hsplit hpre hsuf
  subst hsplit
  obtain ⟨ho1, ho2⟩ := clock_ordered_append pre suf s.last_time hord
  obtain ⟨ha, hb, hc⟩ := run_timer_times E fuel pre s.last_time s sp (le_refl _) ho1 hpre
  obtain ⟨hd, he, hf⟩ := run_timer_times E fuel suf (last_reading s.last_time pre) sp s1 hb ho2 hsuf
  refine ⟨ha, hd, fun hne => ?_, fun hne => ?_⟩
  · rw [hc hne]
    exact hb
  · cases suf with
    | nil =>
      rw [run_timer] at hsuf
      cases hsuf
      have hpne : pre ≠ [] := by simpa using hne
      rw [hc hpne]
      exact hb
    | cons op suf =>
      rw [hf (List.cons_ne_nil _ _)]
      exact he

/-- C17 on `kept_alive` at clock reading 100 followed by `keep_alive` at 700:
`last_time` goes from 0 to 100 to 700 and is at most `current_time` after
each call. -/
theorem last_time_never_decreases_witness :
    run_timer quiet 3 [TimerOp.kept_alive 100] {} =
      .ok { clock := 100, current_time := 100, last_time := 100 } ∧
    run_timer quiet 3 [TimerOp.keep_alive 700]
        { clock := 100, current_time := 100, last_time := 100 } =
      .ok { clock := 700, current_time := 700, last_time := 700, count := 1, mallocs := 1,
            alloc_vprintf_calls := 1, emitted := [liveness_event] } ∧
    (0 : Int) ≤ 100 ∧ (100 : Int) ≤ 700 ∧ (100 : Int) ≤ 100 ∧ (700 : Int) ≤ 700 :=
  ⟨rfl, rfl,
   (last_time_never_decreases quiet 3 [TimerOp.kept_alive 100, TimerOp.keep_alive 700] {}
      (by decide)).1 [TimerOp.kept_alive 100] [TimerOp.keep_alive 700]
      { clock := 100, current_time := 100, last_time := 100 }
      { clock := 700, current_time := 700, last_time := 700, count := 1, mallocs := 1,
        alloc_vprintf_calls := 1, emitted := [liveness_event] } rfl rfl rfl
    |>.imp_right (fun h => ⟨h.1, h.2.1 (by decide), h.2.2 (by decide)⟩)⟩

/-! ## C14: sleeping in slices -/

theorem slices_zero : slices 0 = [] := rfl

theorem slices_short (r : Nat) (h0 : 0 < r) (h10 : r ≤ 10) : slices r = [r] := by
  unfold slices
  by_cases h : r = 10
  · subst h
    rfl
  · have hd : r / 10 = 0 := by omega
    have hm : r % 10 = r := by omega
    rw [hd, hm, if_neg (by omega)]
    rfl

theorem slices_long (r : Nat) (h : 10 < r) : slices r = 10 :: slices (r - 10) := by
  unfold slices
  have hd : r / 10 = (r - 10) / 10 + 1 := by omega
  have hm : r % 10 = (r - 10) % 10 := by omega
  rw [hd, hm, List.replicate_succ, List.cons_append]

theorem slices_bounds (ms : Nat) : ∀ n ∈ slices ms, 1 ≤ n ∧ n ≤ 10 := by
  intro n hn
  unfold slices at hn
  rcases List.mem_append.mp hn with h | h
  · have := (List.mem_replicate.mp h).2
    omega
  · split at h
    · simp at h
    · have := List.mem_singleton.mp h
      omega

theorem slices_sum (ms : Nat) : (slices ms).sum = ms := by
  unfold slices
  rw [List.sum_append, List.sum_replicate]
  split
  · simp only [List.sum_nil, smul_eq_mul]
    omega
  · simp only [List.sum_cons, List.sum_nil, smul_eq_mul]
    omega

theorem slices_length (ms : Nat) : (slices ms).length = (ms + 9) / 10 := by
  unfold slices
  rw [List.length_append, List.length_replicate]
  split
  · simp only [List.length_nil]
    omega
  · simp only [List.length_singleton]
    omega

theorem alive_sleep_loop_done (E : Env) (fuel ms naps i : Nat) (s : State) (h : ¬ i < ms) :
    alive_sleep_loop E fuel ms naps i s = .ok s := by
  cases naps <;> rw [alive_sleep_loop, if_neg h]

theorem alive_sleep_loop_slices (E : Env) (fuel ms : Nat) (hms : ms ≤ 18446744073709551610)
    (naps : Nat) :
    ∀ (i : Nat) (s : State), i % 10 = 0 → (ms - i + 9) / 10 ≤ naps →
      alive_sleep_loop E fuel ms naps i s = sleep_in_slices E fuel (slices (ms - i)) s := by
  induction naps with
  | zero =>
    intro i s _ hn
    have h0 : ms - i = 0 := by omega
    rw [alive_sleep_loop_done E fuel ms 0 i s (by omega), h0, slices_zero, sleep_in_slices]
  | succ n ih =>
    intro i s hi hn
    by_cases hlt : i < ms
    · rw [alive_sleep_loop, if_pos hlt]
      simp only [napTime]
      by_cases hlong : ms - i > 10
      · rw [if_pos hlong, slices_long _ hlong, sleep_in_slices]
        have hwrap : (i + 10) % 18446744073709551616 = i + 10 := by omega
        have hrest : ms - i - 10 = ms - (i + 10) := by omega
        rw [hwrap, hrest]
        cases keep_alive E fuel (usleep s (10 * 1000)) with
        | error e => rfl
        | ok s1 => exact ih (i + 10) s1 (by omega) (by omega)
      · rw [if_neg hlong, slices_short _ (by omega) (by omega), sleep_in_slices]
        have hwrap : (i + 10) % 18446744073709551616 = i + 10 := by omega
        rw [hwrap]
        cases keep_alive E fuel (usleep s ((ms - i) * 1000)) with
        | error e => rfl
        | ok s1 =>
          simp only
          rw [alive_sleep_loop_done E fuel ms n (i + 10) s1 (by omega), sleep_in_slices]
    · have h0 : ms - i = 0 := by omega
      rw [alive_sleep_loop_done E fuel ms (n + 1) i s hlt, h0, slices_zero, sleep_in_slices]

theorem sleep_in_slices_inert (E : Env) (hE : inert E) (fuel : Nat) (ns : List Nat) :
    ∀ (s : State), (s.log_callbacks.map (fun cb => cb.addr)).Nodup →
      s.log_callbacks.length + 2 < fuel → ∃ s1, sleep_in_slices E fuel ns s = .ok s1 := by
  induction ns with
  | nil =>
    intro s _ _
    exact ⟨s, rfl⟩
  | cons n ns ih =>
    intro s hnd hfuel
    obtain ⟨s2, h2, _, _, _, _, _, hreg⟩ := keep_alive_inert E hE (usleep s (n * 1000)) fuel
      hnd hfuel
    obtain ⟨s1, h1⟩ := ih s2 (by rw [hreg]; exact hnd) (by rw [hreg]; exact hfuel)
    exact ⟨s1, by rw [sleep_in_slices, h2]; exact h1⟩

theorem alive_sleep_loop_forever (E : Env) (fuel : Nat) (naps : Nat) :
    ∀ (i : Nat) (s s1 : State), i % 2 = 0 → i < 18446744073709551616 →
      alive_sleep_loop E fuel 18446744073709551615 naps i s ≠ .ok s1 := by
  induction naps with
  | zero =>
    intro i s s1 hi hlt h
    rw [alive_sleep_loop, if_pos (by omega)] at h
    cases h
  | succ n ih =>
    intro i s s1 hi hlt h
    rw [alive_sleep_loop, if_pos (by omega)] at h
    simp only [napTime] at h
    split at h
    · cases h
    · rename_i s2 _
      exact ih ((i + 10) % 18446744073709551616) s2 s1 (by omega) (by omega) h

/-- C14. For a duration `ms` of at most 2^64 - 6 the claim holds: with room
for `ceil(ms/10)` iterations, `alive_sleep` is the spec's sleep in slices, one
`usleep` of the slice followed by one call of `keep_alive` per slice; the
slices are between 1 and 10 ms long, add up to `ms` and there are
`ceil(ms/10)` of them (none for `ms = 0`); and with callbacks that make no
call into log.c the call returns.  For the `uint64_t` value `ms = 2^64 - 1`
the claim fails: `i += napTime` wraps around from 2^64 - 6 to 4, `i` stays
even and so never reaches `ms`, and the loop is not left whatever room it is
given. -/
theorem alive_sleep_slices_until_wrap (E : Env) (fuel naps : Nat) (s : State) (ms : Nat) :
    (ms ≤ 18446744073709551610 → (ms + 9) / 10 ≤ naps →
      alive_sleep E fuel naps s ms = sleep_in_slices E fuel (slices ms) s) ∧
    ((∀ n ∈ slices ms, 1 ≤ n ∧ n ≤ 10) ∧ (slices ms).sum = ms ∧
      (slices ms).length = (ms + 9) / 10) ∧
    (ms ≤ 18446744073709551610 → (ms + 9) / 10 ≤ naps → inert E →
      (s.log_callbacks.map (fun cb => cb.addr)).Nodup → s.log_callbacks.length + 2 < fuel →
      ∃ s1, alive_sleep E fuel naps s ms = .ok s1) ∧
    (∀ s1, alive_sleep E fuel naps s 18446744073709551615 ≠ .ok s1) := by
  have hA : ms ≤ 18446744073709551610 → (ms + 9) / 10 ≤ naps →
      alive_sleep E fuel naps s ms = sleep_in_slices E fuel (slices ms) s := by
    intro hms hn
    unfold alive_sleep
    exact alive_sleep_loop_slices E fuel ms hms naps 0 s rfl (by simpa using hn)
  refine ⟨hA, ⟨slices_bounds ms, slices_sum ms, slices_length ms⟩, ?_, ?_⟩
  · intro hms hn hE hnd hfuel
    rw [hA hms hn]
    exact sleep_in_slices_inert E hE fuel (slices ms) s hnd hfuel
  · intro s1
    unfold alive_sleep
    exact alive_sleep_loop_forever E fuel naps 0 s s1 rfl (by decide)

/-- C14 at `ms = 25` with room for three iterations: slices of 10, 10 and
5 ms. -/
theorem alive_sleep_slices_until_wrap_witness :
    alive_sleep quiet 3 3 {} 25 = sleep_in_slices quiet 3 (slices 25) {} ∧
    slices 25 = [10, 10, 5] ∧
    ∃ s1, alive_sleep quiet 3 3 {} 25 = .ok s1 :=
  ⟨(alive_sleep_slices_until_wrap quiet 3 3 {} 25).1 (by decide) (by decide),
   by decide,
   (alive_sleep_slices_until_wrap quiet 3 3 {} 25).2.2.1 (by decide) (by decide)
     (fun _ _ _ _ _ _ => rfl) (by decide) (by decide)⟩

/-! ## C15: the environment override -/

/-- C15. The claim fails on the code: the range test of `log_init` is made on
`debug_level`, not on the value read from the environment.  With the initial
`debug_level` of -1 and `OPENOCD_DEBUG_LEVEL=99`, `log_init` leaves
`debug_level` at 99, outside `[LOG_LVL_SILENT, LOG_LVL_DEBUG]`, where the claim
keeps the default `LOG_LVL_INFO`.  In general: when the variable is absent or
does not parse, `debug_level` is the default (`LOG_LVL_INFO` for -1, else
unchanged); when it parses to `value` and the default lies in the range,
`debug_level` becomes `value` whatever `value` is. -/
theorem log_init_takes_any_value (s : State) :
    (log_init {} (some "99")).debug_level = 99 ∧
    ¬ (LOG_LVL_SILENT ≤ (99 : Int) ∧ (99 : Int) ≤ LOG_LVL_DEBUG) ∧
    (LOG_LVL_SILENT ≤ ({} : State).debug_level ∧ ({} : State).debug_level ≤ LOG_LVL_DEBUG) ∧
    (log_init s none).debug_level =
      (if s.debug_level = -1 then LOG_LVL_INFO else s.debug_level) ∧
    (∀ str, parse_int str = none →
      (log_init s (some str)).debug_level =
        (if s.debug_level = -1 then LOG_LVL_INFO else s.debug_level)) ∧
    (∀ str value, parse_int str = some value →
      LOG_LVL_SILENT ≤ s.debug_level → s.debug_level ≤ LOG_LVL_DEBUG →
      (log_init s (some str)).debug_level = value) := by
  refine ⟨by decide, by decide, by decide, ?_, ?_, ?_⟩
  · unfold log_init
    split <;> rfl
  · intro str hstr
    unfold log_init
    simp only [hstr]
    split <;> rfl
  · intro str value hstr hlo hhi
    unfold log_init
    simp only [hstr]
    by_cases hd : s.debug_level = -1
    · rw [if_pos hd]
      have hr : ({ s with debug_level := LOG_LVL_INFO } : State).debug_level ≥ LOG_LVL_SILENT ∧
          ({ s with debug_level := LOG_LVL_INFO } : State).debug_level ≤ LOG_LVL_DEBUG := by
        show LOG_LVL_INFO ≥ LOG_LVL_SILENT ∧ LOG_LVL_INFO ≤ LOG_LVL_DEBUG
        decide
      rw [if_pos hr]
    · rw [if_neg hd, if_pos ⟨hlo, hhi⟩]

/-- C15 at `OPENOCD_DEBUG_LEVEL=-7` with `debug_level` at 1: the level
becomes -7. -/
theorem log_init_takes_any_value_witness :
    parse_int "-7" = some (-7) ∧
    (log_init { debug_level := 1 } (some "-7")).debug_level = -7 :=
  ⟨by decide,
   (log_init_takes_any_value { debug_level := 1 }).2.2.2.2.2 "-7" (-7) (by decide)
     (by decide) (by decide)⟩

/-! ## C18: a callback that unregisters another subscription -/

theorem nodup_mid_others {α β : Type} (f : α → β) (pre : List α) (c : α) (rest : List α)
    (h : ((pre ++ c :: rest).map f).Nodup) : ∀ x ∈ rest, f x ≠ f c := by
  intro x hx heq
  rw [List.map_append, List.map_cons] at h
  have hc := (List.nodup_cons.mp (List.nodup_append.mp h).2.1).1
  apply hc
  rw [← heq]
  exact List.mem_map_of_mem f hx

/-- C18 as stated fails: in the registry `(9,90), (8,80), (7,70)` the callback
of the first subscription unregisters the one immediately following it.
`next` was read before the call, so the walk goes on to the node that was
freed. -/
theorem removing_the_next_one_is_not_tolerated :
    log_forward remover 4
        { log_callbacks := [⟨2, 9, 90⟩, ⟨1, 8, 80⟩, ⟨0, 7, 70⟩], mallocs := 3 }
        "jtag.c" 12 "scan" "done\n" = .error .use_after_free :=
  rfl

/-- C18 (amended). Let the registry be `pre ++ c :: mid ++ d :: post` with
pairwise distinct identities and `mid` not empty, so that `d` is a later
subscription that does not immediately follow `c`; let the callback of `c`
unregister `d` when it is invoked with the event, and no other invocation make
a call.  With the counter at 0, `log_forward` returns (with more fuel than
there are subscriptions); it has invoked `pre`, `c`, `mid` and `post` in this
order, once each, and not `d`, which was no longer registered at its turn; the
registry is the old one without `d`. -/
theorem removing_a_later_one_is_tolerated (E : Env) (pre : List log_callback)
    (c : log_callback) (mid : List log_callback) (d : log_callback)
    (post : List log_callback) (s : State) (fuel : Nat) (file : String) (line : Nat)
    (function string : String)
    (hE : publishes_on E c.fn c.priv ⟨file, line, function, string⟩
      (Action.remove_callback d.fn d.priv))
    (hmid : mid ≠ [])
    (hreg : s.log_callbacks = pre ++ c :: (mid ++ d :: post))
    (hnd : (s.log_callbacks.map (fun cb => cb.addr)).Nodup)
    (hid : (s.log_callbacks.map identity).Nodup)
    (h0 : s.log_forward_count = 0)
    (hfuel : s.log_callbacks.length < fuel) :
    log_forward E fuel s file line function string =
      .ok { s with calls := s.calls ++
              (pre ++ c :: (mid ++ post)).map (deliver file line function string),
                   log_callbacks := pre ++ c :: (mid ++ post) } := by
  have hnd1 : ((pre ++ c :: (mid ++ d :: post)).map (fun cb => cb.addr)).Nodup := hreg ▸ hnd
  have hid1 : ((pre ++ c :: (mid ++ d :: post)).map identity).Nodup := hreg ▸ hid
  have hlen : s.log_callbacks.length = pre.length + (mid.length + post.length + 2) := by
    rw [hreg]
    simp
    omega
  -- only `c` makes a call
  have hquiet : ∀ cb : log_callback, identity cb ≠ identity c →
      E.code cb.fn cb.priv file line function string = [] := by
    intro cb hne
    rw [hE, if_neg]
    intro hm
    exact hne (by simp [identity, hm.1, hm.2.1])
  have hpre : ∀ cb ∈ pre, E.code cb.fn cb.priv file line function string = [] :=
    fun cb hcb => hquiet cb (nodup_mid_not_mem identity pre c _ hid1 cb hcb)
  have hrest : ∀ cb ∈ mid ++ post, E.code cb.fn cb.priv file line function string = [] := by
    intro cb hcb
    apply hquiet cb
    apply nodup_mid_others identity pre c _ hid1 cb
    rcases List.mem_append.mp hcb with h | h
    · exact List.mem_append_left _ h
    · exact List.mem_append_right _ (List.mem_cons_of_mem _ h)
  have hcq : E.code c.fn c.priv file line function string =
      [Action.remove_callback d.fn d.priv] := by
    rw [hE, if_pos ⟨rfl, rfl, rfl⟩]
  obtain ⟨k, hk⟩ : ∃ k, fuel = (pre.length + (((mid ++ post).length + k) + 1)) + 1 :=
    ⟨fuel - pre.length - mid.length - post.length - 2, by
      rw [List.length_append]
      omega⟩
  rw [hk, log_forward, if_pos h0, hreg]
  -- up to `c`
  have hA := forward_loop_skip E file line function string pre [] (c :: (mid ++ d :: post)) s
    (((mid ++ post).length + k) + 1) (by simp [hreg]) (by simpa using hnd1) hpre
  rw [hA]
  -- the invocation of `c` unlinks `d`
  have hd : deref c.addr s.log_callbacks =
      some (c, (mid ++ d :: post).head?.map (fun n => n.addr)) := by
    rw [hreg]
    exact deref_mid pre c _ hnd1
  have hnotd : ∀ cb ∈ pre ++ c :: mid, ¬ (cb.fn = d.fn ∧ cb.priv = d.priv) := by
    intro cb hcb hm
    have hid2 : (((pre ++ c :: mid) ++ d :: post).map identity).Nodup := by
      simpa using hid1
    exact nodup_mid_not_mem identity (pre ++ c :: mid) d post hid2 cb hcb
      (by simp [identity, hm.1, hm.2])
  have hun : unlink d.fn d.priv s.log_callbacks = some ((pre ++ c :: mid) ++ post) := by
    rw [hreg]
    have := unlink_split d.fn d.priv (pre ++ c :: mid) d post hnotd ⟨rfl, rfl⟩
    simpa using this
  have hp : callback_action E ((mid ++ post).length + k) (Action.remove_callback d.fn d.priv)
      { s with calls := s.calls ++ pre.map (deliver file line function string) ++
          [⟨c.fn, c.priv, file, line, function, string⟩] } =
      .ok { s with calls := s.calls ++ pre.map (deliver file line function string) ++
              [⟨c.fn, c.priv, file, line, function, string⟩],
                   log_callbacks := (pre ++ c :: mid) ++ post } := by
    rw [callback_action]
    simp only [log_remove_callback, hun]
  have hC := forward_loop_step_single E
    ({ s with calls := s.calls ++ pre.map (deliver file line function string) } : State)
    _ c ((mid ++ d :: post).head?.map (fun n => n.addr)) ((mid ++ post).length + k)
    file line function string (Action.remove_callback d.fn d.priv) hd hcq hp
  simp only [List.head?_cons, Option.map_some']
  rw [hC]
  -- behind `c`: `mid` is not empty, so `next` is still a node of the list
  have hhead : (mid ++ d :: post).head? = (mid ++ post).head? := by
    cases mid with
    | nil => exact absurd rfl hmid
    | cons m mid => rfl
  rw [hhead]
  have hnd2 : (((pre ++ [c]) ++ (mid ++ post) ++ []).map (fun cb : log_callback => cb.addr)).Nodup := by
    have := nodup_mid_drop (fun cb : log_callback => cb.addr) (pre ++ c :: mid) d post
      (by simpa using hnd1)
    simpa using this
  have hB := forward_loop_skip E file line function string (mid ++ post) (pre ++ [c]) []
    ({ s with calls := s.calls ++ pre.map (deliver file line function string) ++
          [⟨c.fn, c.priv, file, line, function, string⟩],
              log_callbacks := (pre ++ c :: mid) ++ post } : State)
    k (by simp) hnd2 hrest
  simp only [List.append_nil] at hB
  rw [hB]
  simp [forward_loop, deliver]

/-- C18 (amended) on the registry `(9,90), (8,80), (7,70)` whose first
callback unregisters the last subscription. -/
theorem removing_a_later_one_is_tolerated_witness :
    log_forward far_remover 4
        { log_callbacks := [⟨2, 9, 90⟩, ⟨1, 8, 80⟩, ⟨0, 7, 70⟩], mallocs := 3 }
        "jtag.c" 12 "scan" "done\n" =
      .ok { log_callbacks := [⟨2, 9, 90⟩, ⟨1, 8, 80⟩], mallocs := 3,
            calls := [⟨9, 90, "jtag.c", 12, "scan", "done\n"⟩,
                      ⟨8, 80, "jtag.c", 12, "scan", "done\n"⟩] } :=
  removing_a_later_one_is_tolerated far_remover [] ⟨2, 9, 90⟩ [⟨1, 8, 80⟩] ⟨0, 7, 70⟩ []
    { log_callbacks := [⟨2, 9, 90⟩, ⟨1, 8, 80⟩, ⟨0, 7, 70⟩], mallocs := 3 } 4
    "jtag.c" 12 "scan" "done\n" (fun _ _ _ _ _ _ => rfl) (by decide) rfl (by decide)
    (by decide) rfl (by decide)

/-! ## C19: publish stores or forwards -/

/-- C19. `log_forward` either stores or forwards.  With the counter different
from 0 it returns, for every environment and all fuel, the call state whose
queue is the old queue followed by one node with the file, line, function and
string of the event: no callback is invoked and the counter and the registry
are the old ones.  With the counter at 0 a call that returns leaves the queue
and the counter as they were, whatever the callbacks do; and with callbacks
that make no call into log.c it returns (with more fuel than there are
subscriptions) the call state in which every subscription was invoked once, in
registry order, with the registry, the queue and the counter unchanged. -/
theorem publish_stores_or_forwards (E : Env) (fuel : Nat) (s : State) (file : String)
    (line : Nat) (function string : String) :
    (s.log_forward_count ≠ 0 →
      log_forward E fuel s file line function string =
        .ok { s with log_head := s.log_head ++ [⟨file, line, function, string⟩] }) ∧
    (s.log_forward_count = 0 → ∀ s1, log_forward E fuel s file line function string = .ok s1 →
      s1.log_head = s.log_head ∧ s1.log_forward_count = s.log_forward_count) ∧
    (s.log_forward_count = 0 → inert E → (s.log_callbacks.map (fun cb => cb.addr)).Nodup →
      s.log_callbacks.length < fuel →
      log_forward E fuel s file line function string =
        .ok { s with calls := s.calls ++
                s.log_callbacks.map (deliver file line function string) }) := by
  refine ⟨?_, ?_, ?_⟩
  · intro h
    cases fuel <;> rw [log_forward, if_neg h]
  · intro h0 s1 h
    have hf := (frame_all E fuel).1 s file line function string s1 h
    exact ⟨hf.2.2.2.2.2.2.2.2 h0, hf.1⟩
  · intro h0 hE hnd hfuel
    exact log_forward_inert E hE s fuel file line function string h0 hnd hfuel

/-- C19 on a registry of two subscriptions: inside a region the event is
queued behind the one already there, outside it is delivered to both. -/
theorem publish_stores_or_forwards_witness :
    log_forward quiet 0
        { log_callbacks := [⟨1, 8, 80⟩, ⟨0, 7, 70⟩], mallocs := 2, log_forward_count := 1,
          log_head := [⟨"a.c", 1, "f", "first\n"⟩] } "jtag.c" 12 "scan" "done\n" =
      .ok { log_callbacks := [⟨1, 8, 80⟩, ⟨0, 7, 70⟩], mallocs := 2, log_forward_count := 1,
            log_head := [⟨"a.c", 1, "f", "first\n"⟩, ⟨"jtag.c", 12, "scan", "done\n"⟩] } ∧
    log_forward quiet 3
        { log_callbacks := [⟨1, 8, 80⟩, ⟨0, 7, 70⟩], mallocs := 2 } "jtag.c" 12 "scan" "done\n" =
      .ok { log_callbacks := [⟨1, 8, 80⟩, ⟨0, 7, 70⟩], mallocs := 2,
            calls := [⟨8, 80, "jtag.c", 12, "scan", "done\n"⟩,
                      ⟨7, 70, "jtag.c", 12, "scan", "done\n"⟩] } :=
  ⟨(publish_stores_or_forwards quiet 0
      { log_callbacks := [⟨1, 8, 80⟩, ⟨0, 7, 70⟩], mallocs := 2, log_forward_count := 1,
        log_head := [⟨"a.c", 1, "f", "first\n"⟩] } "jtag.c" 12 "scan" "done\n").1 (by decide),
   (publish_stores_or_forwards quiet 3
      { log_callbacks := [⟨1, 8, 80⟩, ⟨0, 7, 70⟩], mallocs := 2 }
      "jtag.c" 12 "scan" "done\n").2.2 rfl (fun _ _ _ _ _ _ => rfl) (by decide) (by decide)⟩

/-! ## C20: the command `debug_level` -/

/-- The part of `handle_debug_level_command` behind the arguments keeps
`debug_level` and returns `ERROR_OK`. -/
theorem debug_level_tail (E : Env) (fuel : Nat) (fopen_ok : Bool) (s1 : State)
    (r : ErrorCode × State)
    (h : (if s1.debug_level ≥ LOG_LVL_DEBUG ∧ s1.server_use_pipes = 1 then
        if fopen_ok then
          match LOG_WARNING E fuel { s1 with log_output := [] } FILE__ 295
              "handle_debug_level_command" "enabling log output as we are using pipes" [] with
          | .error e => .error e
          | .ok s2 => .ok (ERROR_OK, s2)
        else .ok (ERROR_OK, s1)
      else .ok (ERROR_OK, s1) : Except Fault (ErrorCode × State)) = .ok r) :
    r.1 = ERROR_OK ∧ r.2.debug_level = s1.debug_level := by
  split at h
  · split at h
    · split at h
      · cases h
      · rename_i s2 h2
        cases h
        have hf := (frame_all E fuel).2.2.2.2.2 _ _ _ _ _ _ _ s2 h2
        exact ⟨rfl, hf.2.1⟩
    · cases h
      exact ⟨rfl, rfl⟩
  · cases h
    exact ⟨rfl, rfl⟩

theorem debug_level_tail_returns (E : Env) (hE : inert E) (fuel : Nat) (fopen_ok : Bool)
    (s1 : State) (hnd : (s1.log_callbacks.map (fun cb => cb.addr)).Nodup)
    (hfuel : s1.log_callbacks.length + 2 < fuel) :
    ∃ r, (if s1.debug_level ≥ LOG_LVL_DEBUG ∧ s1.server_use_pipes = 1 then
        if fopen_ok then
          match LOG_WARNING E fuel { s1 with log_output := [] } FILE__ 295
              "handle_debug_level_command" "enabling log output as we are using pipes" [] with
          | .error e => .error e
          | .ok s2 => .ok (ERROR_OK, s2)
        else .ok (ERROR_OK, s1)
      else .ok (ERROR_OK, s1) : Except Fault (ErrorCode × State)) = .ok r := by
  split
  · split
    · obtain ⟨s2, h2, _⟩ := log_printf_lf_inert E hE ({ s1 with log_output := [] } : State) fuel
        LOG_LVL_WARNING FILE__ 295 "handle_debug_level_command"
        "enabling log output as we are using pipes" [] "Warn : " (by decide) hnd hfuel
      unfold LOG_WARNING
      rw [h2]
      exact ⟨_, rfl⟩
    · exact ⟨_, rfl⟩
  · exact ⟨_, rfl⟩

/-- C20. `handle_debug_level_command` with more than one argument returns
`ERROR_COMMAND_SYNTAX_ERROR` and the state it was called in.  With exactly one
argument that parses as the unsigned number `n`, a call that returns gives
`ERROR_OK` and `debug_level = min n 3`, a level between 0 and 3; with no
argument it gives `ERROR_OK` and the old `debug_level`.  In both cases the
call returns when the callbacks make no call into log.c (the handler may log a
warning) and there is fuel for the subscriptions. -/
theorem debug_level_command (E : Env) (fuel : Nat) (parse_uint : String → Except ErrorCode Nat)
    (fopen_ok : Bool) (s : State) (argv : List String) :
    (2 ≤ argv.length →
      handle_debug_level_command E fuel parse_uint fopen_ok s argv =
        .ok (ERROR_COMMAND_SYNTAX_ERROR, s)) ∧
    (∀ a n, argv = [a] → parse_uint a = .ok n → n < 4294967296 →
      ∀ r, handle_debug_level_command E fuel parse_uint fopen_ok s argv = .ok r →
        r.1 = ERROR_OK ∧ r.2.debug_level = ((min n 3 : Nat) : Int) ∧
        0 ≤ r.2.debug_level ∧ r.2.debug_level ≤ 3) ∧
    (argv = [] →
      ∀ r, handle_debug_level_command E fuel parse_uint fopen_ok s argv = .ok r →
        r.1 = ERROR_OK ∧ r.2.debug_level = s.debug_level) ∧
    (argv.length ≤ 1 → inert E → (s.log_callbacks.map (fun cb => cb.addr)).Nodup →
      s.log_callbacks.length + 2 < fuel →
      ∃ r, handle_debug_level_command E fuel parse_uint fopen_ok s argv = .ok r) := by
  refine ⟨?_, ?_, ?_, ?_⟩
  · intro hlen
    match argv, hlen with
    | _ :: _ :: _, _ => rfl
  · intro a n hargv hparse hn r h
    subst hargv
    unfold handle_debug_level_command at h
    simp only [hparse] at h
    obtain ⟨h1, h2⟩ := debug_level_tail E fuel fopen_ok
      ({ s with debug_level := ((min (n % 4294967296) LOG_LVL_DEBUG.toNat : Nat) : Int) } : State)
      r h
    have hlvl : LOG_LVL_DEBUG.toNat = 3 := by decide
    have hd : r.2.debug_level = ((min n 3 : Nat) : Int) := by
      rw [h2]
      show ((min (n % 4294967296) LOG_LVL_DEBUG.toNat : Nat) : Int) = ((min n 3 : Nat) : Int)
      rw [hlvl, Nat.mod_eq_of_lt hn]
    refine ⟨h1, hd, ?_, ?_⟩
    · rw [hd]
      exact Int.ofNat_nonneg _
    · rw [hd]
      have : min n 3 ≤ 3 := Nat.min_le_right n 3
      exact_mod_cast this
  · intro hargv r h
    subst hargv
    unfold handle_debug_level_command at h
    exact debug_level_tail E fuel fopen_ok s r h
  · intro hlen hE hnd hfuel
    match argv, hlen with
    | [], _ =>
      unfold handle_debug_level_command
      exact debug_level_tail_returns E hE fuel fopen_ok s hnd hfuel
    | [a], _ =>
      unfold handle_debug_level_command
      simp only
      cases hp : parse_uint a with
      | error e => exact ⟨_, rfl⟩
      | ok n =>
        exact debug_level_tail_returns E hE fuel fopen_ok
          ({ s with debug_level := ((min (n % 4294967296) LOG_LVL_DEBUG.toNat : Nat) : Int) } : State)
          hnd hfuel

/-- C20 at the arguments `7 8` (rejected), `7` (level 3) and none (level
unchanged), with a parser of decimal numbers. -/
theorem debug_level_command_witness :
    handle_debug_level_command quiet 3 
        (fun a => (parse_digits a.data 0).elim (.error ERROR_INVALID_ARGUMENTS) .ok) false
        { debug_level := 2 } ["7", "8"] = .ok (ERROR_COMMAND_SYNTAX_ERROR, { debug_level := 2 }) ∧
    (∀ r, handle_debug_level_command quiet 3 
        (fun a => (parse_digits a.data 0).elim (.error ERROR_INVALID_ARGUMENTS) .ok) false
        { debug_level := 2 } ["7"] = .ok r →
      r.1 = ERROR_OK ∧ r.2.debug_level = ((min 7 3 : Nat) : Int) ∧
        0 ≤ r.2.debug_level ∧ r.2.debug_level ≤ 3) ∧
    (∀ r, handle_debug_level_command quiet 3 
        (fun a => (parse_digits a.data 0).elim (.error ERROR_INVALID_ARGUMENTS) .ok) false
        { debug_level := 2 } [] = .ok r →
      r.1 = ERROR_OK ∧ r.2.debug_level = 2) ∧
    ∃ r, handle_debug_level_command quiet 3 
        (fun a => (parse_digits a.data 0).elim (.error ERROR_INVALID_ARGUMENTS) .ok) false
        { debug_level := 2 } ["7"] = .ok r :=
  ⟨(debug_level_command quiet 3 
        (fun a => (parse_digits a.data 0).elim (.error ERROR_INVALID_ARGUMENTS) .ok) false
      { debug_level := 2 } ["7", "8"]).1 (by decide),
   (debug_level_command quiet 3 
        (fun a => (parse_digits a.data 0).elim (.error ERROR_INVALID_ARGUMENTS) .ok) false
      { debug_level := 2 } ["7"]).2.1 "7" 7 rfl rfl (by decide),
   (debug_level_command quiet 3 
        (fun a => (parse_digits a.data 0).elim (.error ERROR_INVALID_ARGUMENTS) .ok) false
      { debug_level := 2 } []).2.2.1 rfl,
   (debug_level_command quiet 3 
        (fun a => (parse_digits a.data 0).elim (.error ERROR_INVALID_ARGUMENTS) .ok) false
      { debug_level := 2 } ["7"]).2.2.2 (by decide) (fun _ _ _ _ _ _ => rfl) (by decide)
      (by decide)⟩

end Log
